import Mathlib

/-!
# A shallow embedding of the `critic` ATG pipeline

This file embeds the core of the `critic` ATG (Annotated Text Grammar)
processing pipeline — the escape engine, the text parser, the renderer,
the correction flattener, the word tokeniser and the surface supplier —
and proves properties of it.

Modelling conventions:
* Rust `&str` / `String` values are modelled as `List Char` (Unicode
  scalar values).  Byte offsets, which the Rust code tracks through
  `str::len` / `char_indices`, are recovered through `charBytes`
  (the UTF-8 encoding length of a scalar value).
* Rust functions that contain an unbounded loop take a `fuel` argument
  and return their result inside `Option`; `none` means the loop ran
  out of fuel (the corresponding Rust loop diverges) or the Rust code
  panicked.  Every wrapper instantiates the fuel with `s.length + 1`,
  which is enough for every loop that consumes at least one scalar per
  iteration.
* A Rust `panic!` / `.expect(...)` / failing `try_into` is modelled as
  a `none` result.
* The ATG dialect, a compile-time trait (`trait AtgDialect`) in Rust,
  is passed as an explicit record value.
-/

deriving instance DecidableEq for Except

namespace Critic

/-- The number of bytes of the UTF-8 encoding of a scalar value
(Rust `char::len_utf8`). -/
def charBytes (c : Char) : Nat :=
  if c.toNat < 0x80 then 1
  else if c.toNat < 0x800 then 2
  else if c.toNat < 0x10000 then 3
  else 4

/-- The number of bytes of the UTF-8 encoding of a string (Rust `str::len`). -/
def byteLen (s : List Char) : Nat :=
  (s.map charBytes).sum

/-- Rust `char::is_ascii_hexdigit`. -/
def isAsciiHexdigit (c : Char) : Bool :=
  c.isDigit || ('a' ≤ c && c ≤ 'f') || ('A' ≤ c && c ≤ 'F')

/-- The numeric value of one ASCII hex digit. -/
def hexDigitVal (c : Char) : Nat :=
  if 97 ≤ c.toNat then c.toNat - 87
  else if 65 ≤ c.toNat then c.toNat - 55
  else c.toNat - 48

/-- `u32::from_str_radix(s, 16)` on a string of hex digits.
The `map_err` on the Rust call site is dead code because every caller
has checked `is_ascii_hexdigit` on all characters first. -/
def hexVal (s : List Char) : Nat :=
  s.foldl (fun a c => a * 16 + hexDigitVal c) 0

/-- Rust `char::from_u32`: `some` exactly on Unicode scalar values. -/
def charFromU32 (n : Nat) : Option Char :=
  if h : n.isValidChar then some ⟨UInt32.ofNatCore n (by
    rcases h with hl | ⟨_, hr⟩
    · exact Nat.lt_trans hl (by norm_num)
    · exact Nat.lt_trans hr (by norm_num)), h⟩
  else none

/-- Rust `u8::from_str` (`str::parse::<u8>()`): an optional leading `+`,
then one or more ASCII decimal digits, value at most `255`. -/
def parseU8 (s : List Char) : Option Nat :=
  let digits := match s with
    | '+' :: r => r
    | _ => s
  if digits.isEmpty then none
  else if digits.all Char.isDigit then
    let v := digits.foldl (fun a c => a * 10 + (c.toNat - 48)) 0
    if v ≤ 255 then some v else none
  else none

/-- Decimal rendering of a natural number (Rust `format!("{}", n)` on an
unsigned integer), by way of a structurally decreasing accumulator. -/
def natDecimalAux : Nat → Nat → List Char → List Char
  | 0, _, acc => acc
  | fuel + 1, n, acc =>
    let d := Char.ofNat (48 + n % 10)
    if n < 10 then d :: acc
    else natDecimalAux fuel (n / 10) (d :: acc)

/-- Decimal rendering of a natural number (Rust `format!("{}", n)`). -/
def natDecimal (n : Nat) : List Char :=
  natDecimalAux (n + 1) n []

/-- `ControlPointDefinition`: the control points with special semantics in
an ATG dialect (src/atg.rs). -/
structure ControlPointDefinition where
  escape : Char
  start_param : Char
  stop_param : Char
  illegible : Char
  lacuna : Char
  anchor : Char
  format_break : Char
  correction : Char
  non_semantic : List Char
  comment : Char
deriving DecidableEq

/-- `ControlPointDefinition::is_non_semantic`. -/
def ControlPointDefinition.is_non_semantic (cp : ControlPointDefinition) (c : Char) : Bool :=
  cp.non_semantic.contains c

/-- `ControlPointDefinition::is_control_point`.  The source lists
`correction` twice in the probed array; the duplication is kept here. -/
def ControlPointDefinition.is_control_point (cp : ControlPointDefinition) (c : Char) : Bool :=
  [cp.escape, cp.start_param, cp.stop_param, cp.correction, cp.illegible, cp.lacuna,
    cp.correction, cp.anchor, cp.format_break, cp.comment].contains c
  || cp.is_non_semantic c

/-- The `AtgDialect` trait, embedded as a record of its associated
constants (the spec's "dialects as values" reading of the trait). -/
structure AtgDialect where
  native_points : List Char
  punctuation : List Char
  atg_control_points : ControlPointDefinition
  word_divisor : Char
deriving DecidableEq

/-- `AtgDialect::is_control_point`. -/
def AtgDialect.is_control_point (D : AtgDialect) (c : Char) : Bool :=
  D.atg_control_points.is_control_point c

/-- `AtgDialect::is_non_semantic`. -/
def AtgDialect.is_non_semantic (D : AtgDialect) (c : Char) : Bool :=
  D.atg_control_points.is_non_semantic c

/-- The example control points (src/atg/dialect/example.rs). -/
def exampleControlPoints : ControlPointDefinition where
  escape := '\\'
  start_param := '('
  stop_param := ')'
  illegible := '^'
  lacuna := '~'
  anchor := '§'
  format_break := '/'
  correction := '&'
  non_semantic := ['\t', '\n']
  comment := '#'

/-- `ExampleAtgDialect` (src/atg/dialect/example.rs). -/
def exampleAtgDialect : AtgDialect where
  native_points :=
    "abcdefghijklmnopqrstuvwxyzABCDEFGHIJKLMNOPQRSTUVWXYZ,.'".toList
  punctuation := [',', '.']
  atg_control_points := exampleControlPoints
  word_divisor := ' '

/-- The example anchor dialect's anchor values
(`enum Example` in src/anchor/example.rs). -/
inductive ExampleAnchor where
  | one
  | two
deriving DecidableEq

/-- The parse error of the example anchor dialect
(`ParseStanzaError` in src/anchor/example.rs). -/
inductive ParseStanzaError where
  | EmptyString
  | TooManyChars
  | NotInRange
  | NotANumber
deriving DecidableEq

/-- `Display for Example` (src/anchor/example.rs). -/
def ExampleAnchor.render : ExampleAnchor → List Char
  | .one => ['1']
  | .two => ['2']

/-- `FromStr for Example` (src/anchor/example.rs).  `s.len()` is the byte
length of the string. -/
def exampleAnchorFromStr (s : List Char) : Except ParseStanzaError ExampleAnchor :=
  if s.isEmpty then .error .EmptyString
  else if 2 ≤ byteLen s then .error .TooManyChars
  else match parseU8 s with
    | none => .error .NotANumber
    | some 1 => .ok .one
    | some 2 => .ok .two
    | some _ => .error .NotInRange

/-- `enum Anchor` (src/anchor.rs): the anchor values of all compiled-in
anchor dialects; only the example dialect is compiled in. -/
inductive Anchor where
  | example (e : ExampleAnchor)
deriving DecidableEq

/-- `Display for Anchor`. -/
def Anchor.render : Anchor → List Char
  | .example e => e.render

/-- `enum AnchorDialect` (src/anchor.rs). -/
inductive AnchorDialect where
  | example
deriving DecidableEq

/-- `AnchorDialect::parse`.  The source's error type `Box<dyn Error>` can
only carry the example dialect's `ParseStanzaError` here. -/
def AnchorDialect.parse (ad : AnchorDialect) (s : List Char) :
    Except ParseStanzaError Anchor :=
  match ad with
  | .example => (exampleAnchorFromStr s).map Anchor.example

/-- `AtgParseErrorReason` (src/atg.rs). -/
inductive AtgParseErrorReason where
  | EscapeMalformed (x : List Char)
  | MissingParameterStart
  | LengthNotANumber (x : List Char)
  | NotNative (x : List Char)
  | AnchorReason (e : ParseStanzaError)
  | UnknownFormatBreak (x : List Char)
  | EOFReason (c : Char)
  | IncorrectNumberOfCorrections (expected received : Nat)
deriving DecidableEq

/-- `AtgParseError` (src/atg.rs): a reason plus the byte offset at which
the problem was encountered. -/
structure AtgParseError where
  location : Nat
  reason : AtgParseErrorReason
deriving DecidableEq

/-- `AtgParseError::offset_location`. -/
def AtgParseError.offset_location (e : AtgParseError) (offset : Nat) : AtgParseError :=
  ⟨e.location + offset, e.reason⟩

/-- `Uncertain<T>` (src/atg.rs).  The phantom reason parameter `T`
(`Illegible` / `Lacuna`) is dropped; the two uses are distinguished by the
`Part` (and `UniquePart`) constructor carrying the value.  `len` is a `u8`
in the source; it is a `Nat` here and every constructing site is checked
against `255` exactly where the source's `u8` arithmetic is. -/
structure Uncertain where
  len : Nat
  proposal : Option (List Char)
deriving DecidableEq

/-- `enum Present` (src/atg.rs). -/
inductive Present where
  | Native (s : List Char)
  | Illegible (u : Uncertain)
deriving DecidableEq

/-- `struct Correction` (src/atg.rs). -/
structure Correction where
  versions : List Present
deriving DecidableEq

/-- `enum FormatBreak` (src/atg.rs). -/
inductive FormatBreak where
  | Line
  | Column
  | Paragraph
  | Folio
deriving DecidableEq

/-- `enum Part` (src/atg.rs). -/
inductive Part where
  | Native (s : List Char)
  | Illegible (u : Uncertain)
  | Lacuna (u : Uncertain)
  | Correction (c : Correction)
  | FormatBreak (f : FormatBreak)
  | Anchor (a : Anchor)
deriving DecidableEq

/-- `struct Text` (src/atg.rs). -/
structure Text where
  parts : List Part
deriving DecidableEq

/-- `escape_one_if_required` (src/atg.rs): if the first scalar of `s` is
the dialect's escape, read one escaped character; otherwise return the
first scalar.  Returns the character, the remaining string and the byte
offset at which the remainder starts; the outer `Option` is `none` where
the source panics.

When there is no character after the one(s) consumed, the source falls
back to the literal byte indices `1` (one plain scalar read) and `2`
(escape plus escaped control point), then slices `&s[idx..]`; if the
scalars read occupy more bytes than that, the slice is not on a char
boundary and the source panics, modelled by `none`.

The hex branches of the source check `s.len() >= 7` (bytes) and that the
six scalars after the escape are ASCII hex digits, then slice `&s[1..7]`.
For a one-byte escape scalar those six hex digits occupy exactly bytes
1..7, so the slices are rendered here as `rest.take 6` (resp. 4, 2); for
a multi-byte escape scalar the source would panic on the non-boundary
slice where this model reads on.  Every dialect considered in the
theorems below has a one-byte escape scalar, so no statement depends on
that corner. -/
def escape_one_if_required (D : AtgDialect) (s : List Char) :
    Option (Except (List Char) (Char × List Char × Nat)) :=
  match s with
  | [] => some (.error [])
  | c :: rest =>
    if c ≠ D.atg_control_points.escape then
      if rest.isEmpty && charBytes c ≠ 1 then none
      else some (.ok (c, rest, charBytes c))
    else
      match rest with
      | [] => some (.error s)
      | next :: rest2 =>
        if D.is_control_point next then
          if rest2.isEmpty then
            -- fallback byte index 2: `&s[2..]` is what lies after byte 2,
            -- valid only when byte 2 is a character boundary
            if charBytes c + charBytes next = 2 then some (.ok (next, [], 2))
            else if charBytes c = 2 then some (.ok (next, [next], 2))
            else none
          else some (.ok (next, rest2, charBytes c + charBytes next))
        else if 7 ≤ byteLen s && (rest.take 6).all isAsciiHexdigit then
          match charFromU32 (hexVal (rest.take 6)) with
          | some parsed => some (.ok (parsed, rest.drop 6, 7))
          | none => some (.error (s.take 7))
        else if 5 ≤ byteLen s && (rest.take 4).all isAsciiHexdigit then
          match charFromU32 (hexVal (rest.take 4)) with
          | some parsed => some (.ok (parsed, rest.drop 4, 5))
          | none => some (.error (s.take 5))
        else if 3 ≤ byteLen s && (rest.take 2).all isAsciiHexdigit then
          match charFromU32 (hexVal (rest.take 2)) with
          | some parsed => some (.ok (parsed, rest.drop 2, 3))
          | none => some (.error (s.take 3))
        else some (.error s)

/-- Result of an embedded parsing operation: `none` models a Rust panic
or divergence (fuel exhaustion), `some (.error e)` a returned
`Err(AtgParseError)`, `some (.ok a)` a returned `Ok(a)`. -/
abbrev PRes (A : Type) := Option (Except AtgParseError A)

/-- Loop body of `escape_until_next` (src/atg.rs), with the mutable
`res` / `remainder` / `offset` state as arguments. -/
def escape_until_next_loop (D : AtgDialect) (c : Char) :
    Nat → List Char → List Char → Nat → PRes (List Char × List Char × Nat)
  | 0, _, _, _ => none
  | fuel + 1, res, remainder, offset =>
    if remainder.isEmpty then some (.error ⟨offset, .EOFReason c⟩)
    else
      match escape_one_if_required D remainder with
      | none => none
      | some (.error x) => some (.error ⟨offset, .EscapeMalformed x⟩)
      | some (.ok (current, rem2, adv)) =>
        let offset2 := offset + adv
        if current = c then some (.ok (res, rem2, offset2))
        else escape_until_next_loop D c fuel (res ++ [current]) rem2 offset2

/-- `escape_until_next` (src/atg.rs): eat characters (escaping as we go)
until the next occurrence of `c`; EOF is an error. -/
def escape_until_next (D : AtgDialect) (c : Char) (fuel : Nat) (s : List Char) :
    PRes (List Char × List Char × Nat) :=
  escape_until_next_loop D c fuel [] s 0

/-- Loop body of `escape_until_control_point` (src/atg.rs). -/
def escape_until_control_point_loop (D : AtgDialect) :
    Nat → List Char → List Char → Nat → PRes (List Char × Option Char × List Char × Nat)
  | 0, _, _, _ => none
  | fuel + 1, res, remainder, offset =>
    if remainder.isEmpty then some (.ok (res, none, remainder, 0))
    else
      match escape_one_if_required D remainder with
      | none => none
      | some (.error x) => some (.error ⟨offset, .EscapeMalformed x⟩)
      | some (.ok (current, new_remainder, adv)) =>
        let offset2 := offset + adv
        if D.is_control_point current then some (.ok (res, some current, remainder, offset2))
        else escape_until_control_point_loop D fuel (res ++ [current]) new_remainder offset2

/-- `escape_until_control_point` (src/atg.rs): collect all characters
until the next control point; the remainder still includes the control
point. -/
def escape_until_control_point (D : AtgDialect) (fuel : Nat) (s : List Char) :
    PRes (List Char × Option Char × List Char × Nat) :=
  escape_until_control_point_loop D fuel [] s 0

/-- `collect_parameter` (src/atg.rs): parse a single `(`…`)`-delimited
parameter; the input must start with the parameter start control point. -/
def collect_parameter (D : AtgDialect) (fuel : Nat) (s : List Char) :
    PRes (List Char × List Char × Nat) :=
  match escape_one_if_required D s with
  | none => none
  | some (.error x) => some (.error ⟨0, .EscapeMalformed x⟩)
  | some (.ok (first, remainder, _)) =>
    if first ≠ D.atg_control_points.start_param then
      some (.error ⟨0, .MissingParameterStart⟩)
    else
      match escape_until_next D D.atg_control_points.stop_param fuel remainder with
      | none => none
      | some (.error x) => some (.error (x.offset_location 1))
      | some (.ok r) => some (.ok r)

/-- Byte index of the first scalar of `s` that is not among the
dialect's native points (the `param.char_indices()` loop of
`collect_native_parameter`). -/
def firstNonNative (D : AtgDialect) : List Char → Nat → Option Nat
  | [], _ => none
  | c :: rest, idx =>
    if D.native_points.contains c then firstNonNative D rest (idx + charBytes c)
    else some idx

/-- `collect_native_parameter` (src/atg.rs): like `collect_parameter`,
but every scalar of the parameter must be a native point. -/
def collect_native_parameter (D : AtgDialect) (fuel : Nat) (s : List Char) :
    PRes (List Char × List Char × Nat) :=
  if s.isEmpty then some (.error ⟨0, .MissingParameterStart⟩)
  else
    match collect_parameter D fuel s with
    | none => none
    | some (.error x) => some (.error x)
    | some (.ok (parameter, remainder, offset)) =>
      match firstNonNative D parameter 0 with
      | some idx => some (.error ⟨idx, .NotNative parameter⟩)
      | none => some (.ok (parameter, remainder, offset))

/-- `Uncertain::parse` (src/atg.rs): parse the parameters of an uncertain
passage (after the caller consumed the illegible / lacuna control point). -/
def Uncertain.parse (D : AtgDialect) (fuel : Nat) (s : List Char) :
    PRes (Uncertain × List Char) :=
  match escape_one_if_required D s with
  | none => none
  | some (.error x) => some (.error ⟨0, .EscapeMalformed x⟩)
  | some (.ok (first, remainder, _)) =>
    if first ≠ D.atg_control_points.start_param then
      some (.error ⟨0, .MissingParameterStart⟩)
    else
      match escape_until_next D D.atg_control_points.stop_param fuel remainder with
      | none => none
      | some (.error x) => some (.error (x.offset_location 1))
      | some (.ok (first_param, remainder, first_param_offset)) =>
        match parseU8 first_param with
        | none => some (.error ⟨1, .LengthNotANumber first_param⟩)
        | some uncertain_len =>
          if remainder.isEmpty then some (.ok (⟨uncertain_len, none⟩, remainder))
          else
            -- the source applies `offset_location (first_param_offset + 1)`
            -- to the error first and then matches on its reason; the
            -- location does not influence the match
            match collect_native_parameter D fuel remainder with
            | none => none
            | some (.error e) =>
              match e.reason with
              | .MissingParameterStart => some (.ok (⟨uncertain_len, none⟩, remainder))
              | _ => some (.error (e.offset_location (first_param_offset + 1)))
            | some (.ok (proposal, remainder2, _)) =>
              some (.ok (⟨uncertain_len,
                if proposal.isEmpty then none else some proposal⟩, remainder2))

/-- `FormatBreak::parse` (src/atg.rs). -/
def FormatBreak.parse (D : AtgDialect) (fuel : Nat) (s : List Char) :
    PRes (FormatBreak × List Char) :=
  match collect_parameter D fuel s with
  | none => none
  | some (.error x) => some (.error x)
  | some (.ok (parameter, remainder, _)) =>
    if parameter = "line".toList then some (.ok (.Line, remainder))
    else if parameter = "paragraph".toList then some (.ok (.Paragraph, remainder))
    else if parameter = "column".toList then some (.ok (.Column, remainder))
    else if parameter = "folio".toList then some (.ok (.Folio, remainder))
    else some (.error ⟨1, .UnknownFormatBreak parameter⟩)

/-- `Part::parse_anchor` (src/atg.rs). -/
def Part.parse_anchor (D : AtgDialect) (fuel : Nat) (s : List Char)
    (anchor_dialect : AnchorDialect) : PRes (Critic.Anchor × List Char) :=
  match collect_parameter D fuel s with
  | none => none
  | some (.error x) => some (.error x)
  | some (.ok (anchor_string, remainder, _)) =>
    match anchor_dialect.parse anchor_string with
    | .error e => some (.error ⟨1, .AnchorReason e⟩)
    | .ok anchor => some (.ok (anchor, remainder))

/-- `Part::parse_comment` (src/atg.rs): returns the comment's byte length
and the remainder. -/
def Part.parse_comment (D : AtgDialect) (fuel : Nat) (s : List Char) :
    PRes (Nat × List Char) :=
  match collect_parameter D fuel s with
  | none => none
  | some (.error x) => some (.error x)
  | some (.ok (c, remainder, _)) => some (.ok (byteLen c, remainder))

/-- The comment arm of the `Part::parse_native` loop (src/atg.rs): parse
and discard a comment, then collect until the next control point.  The
`parse_comment` error is propagated without offset adjustment, exactly
as the source's plain `?` does; the second collection's error is shifted
by the offset consumed so far. -/
def Part.parse_native_comment_step (D : AtgDialect) (fuel : Nat)
    (remainder : List Char) (offset : Nat) :
    PRes (List Char × Option Char × List Char × Nat) :=
  match Part.parse_comment D fuel remainder with
  | none => none
  | some (.error x) => some (.error x)
  | some (.ok (_, rem2)) =>
    match escape_until_control_point D fuel rem2 with
    | none => none
    | some (.error x) => some (.error (x.offset_location offset))
    | some (.ok r) => some (.ok r)

/-- The non-semantic arm of the `Part::parse_native` loop (src/atg.rs):
`&remainder[1..]` drops one byte (valid only when the head of
`remainder` is a one-byte scalar, otherwise the source panics), then
collect until the next control point. -/
def Part.parse_native_nonsemantic_step (D : AtgDialect) (fuel : Nat)
    (remainder : List Char) (offset : Nat) :
    PRes (List Char × Option Char × List Char × Nat) :=
  match remainder with
  | [] => none
  | h :: t =>
    if charBytes h = 1 then
      match escape_until_control_point D fuel t with
      | none => none
      | some (.error x) => some (.error (x.offset_location offset))
      | some (.ok r) => some (.ok r)
    else none

/-- Loop body of `Part::parse_native` (src/atg.rs), with the mutable
`res` / `maybe_ctrl` / `remainder` / `offset` state as arguments. -/
def Part.parse_native_loop (D : AtgDialect) :
    Nat → List Char → Option Char → List Char → Nat → PRes (Part × List Char)
  | 0, _, _, _, _ => none
  | fuel + 1, res, maybe_ctrl, remainder, offset =>
    match maybe_ctrl with
    | none => some (.ok (.Native res, []))
    | some ctrl_point =>
      if ctrl_point = D.atg_control_points.comment then
        match Part.parse_native_comment_step D fuel remainder offset with
        | none => none
        | some (.error x) => some (.error x)
        | some (.ok (next_res, mc2, rem3, add_offset)) =>
          Part.parse_native_loop D fuel (res ++ next_res) mc2 rem3 (offset + add_offset)
      else if D.is_non_semantic ctrl_point then
        match Part.parse_native_nonsemantic_step D fuel remainder offset with
        | none => none
        | some (.error x) => some (.error x)
        | some (.ok (next_res, mc2, rem3, add_offset)) =>
          Part.parse_native_loop D fuel (res ++ next_res) mc2 rem3 (offset + add_offset)
      else some (.ok (.Native res, remainder))

/-- `Part::parse_native` (src/atg.rs): read all characters until the next
non-comment, non-non-semantic control point. -/
def Part.parse_native (D : AtgDialect) (fuel : Nat) (s : List Char) :
    PRes (Part × List Char) :=
  if s.isEmpty then some (.ok (.Native [], []))
  else
    match escape_until_control_point D fuel s with
    | none => none
    | some (.error x) => some (.error x)
    | some (.ok (res, maybe_ctrl, remainder, _)) =>
      Part.parse_native_loop D fuel res maybe_ctrl remainder 0

/-- Loop body of `Correction::parse` (src/atg.rs). -/
def Correction.parse_loop (D : AtgDialect) (number_of_corrections : Nat) :
    Nat → List Present → List Char → Nat → PRes (Correction × List Char)
  | 0, _, _, _ => none
  | fuel + 1, versions, remainder, offset =>
    match collect_native_parameter D fuel remainder with
    | none => none
    | some (.error e) =>
      match e.reason with
      | .MissingParameterStart =>
        if versions.length ≠ number_of_corrections then
          some (.error ⟨offset,
            .IncorrectNumberOfCorrections number_of_corrections versions.length⟩)
        else some (.ok (⟨versions⟩, remainder))
      | _ => some (.error (e.offset_location offset))
    | some (.ok (param, rem2, add_offset)) =>
      Correction.parse_loop D number_of_corrections fuel
        (versions ++ [.Native param]) rem2 (offset + add_offset)

/-- `Correction::parse` (src/atg.rs): read native parameters until the
next scalar is not a parameter start; their count must equal the
witness's number of corrections. -/
def Correction.parse (D : AtgDialect) (fuel : Nat) (s : List Char)
    (number_of_corrections : Nat) : PRes (Correction × List Char) :=
  match collect_native_parameter D fuel s with
  | none => none
  | some (.error x) => some (.error x)
  | some (.ok (param, remainder, _)) =>
    Correction.parse_loop D number_of_corrections fuel [.Native param] remainder 0

/-- `Part::parse` (src/atg.rs): parse a string as a single ATG part. -/
def Part.parse (D : AtgDialect) (fuel : Nat) (s : List Char)
    (anchor_dialect : AnchorDialect) (number_of_corrections : Nat) :
    PRes (Part × List Char) :=
  if s.isEmpty then some (.ok (.Native [], s))
  else
    match escape_one_if_required D s with
    | none => none
    | some (.error x) => some (.error ⟨0, .EscapeMalformed x⟩)
    | some (.ok (c, remainder, _)) =>
      if c = D.atg_control_points.illegible then
        match Uncertain.parse D fuel remainder with
        | none => none
        | some (.error x) => some (.error (x.offset_location 1))
        | some (.ok (illeg, rem2)) => some (.ok (.Illegible illeg, rem2))
      else if c = D.atg_control_points.lacuna then
        match Uncertain.parse D fuel remainder with
        | none => none
        | some (.error x) => some (.error (x.offset_location 1))
        | some (.ok (lac, rem2)) => some (.ok (.Lacuna lac, rem2))
      else if c = D.atg_control_points.anchor then
        match Part.parse_anchor D fuel remainder anchor_dialect with
        | none => none
        | some (.error x) => some (.error (x.offset_location 1))
        | some (.ok (anchor, rem2)) => some (.ok (.Anchor anchor, rem2))
      else if c = D.atg_control_points.format_break then
        match FormatBreak.parse D fuel remainder with
        | none => none
        | some (.error x) => some (.error (x.offset_location 1))
        | some (.ok (fb, rem2)) => some (.ok (.FormatBreak fb, rem2))
      else if c = D.atg_control_points.correction then
        match Correction.parse D fuel remainder number_of_corrections with
        | none => none
        | some (.error x) => some (.error (x.offset_location 1))
        | some (.ok (corr, rem2)) => some (.ok (.Correction corr, rem2))
      else if c = D.atg_control_points.comment then
        match Part.parse_comment D fuel remainder with
        | none => none
        | some (.error x) => some (.error (x.offset_location 1))
        | some (.ok (comment_length, rem2)) =>
          match Part.parse_native D fuel rem2 with
          | none => none
          | some (.error x) => some (.error (x.offset_location comment_length))
          | some (.ok r) => some (.ok r)
      else Part.parse_native D fuel s

/-- Loop body of `Text::parse` (src/atg.rs).  Errors of later parts are
propagated without offset adjustment, as in the source.  `inner_fuel` is
handed unchanged to `Part::parse`. -/
def Text.parse_loop (D : AtgDialect) (anchor_dialect : AnchorDialect)
    (number_of_corrections : Nat) (inner_fuel : Nat) :
    Nat → List Part → List Char → PRes Text
  | 0, _, _ => none
  | fuel + 1, parts, remainder =>
    if remainder.isEmpty then some (.ok ⟨parts⟩)
    else
      match Part.parse D inner_fuel remainder anchor_dialect number_of_corrections with
      | none => none
      | some (.error x) => some (.error x)
      | some (.ok (next_part, next_remainder)) =>
        Text.parse_loop D anchor_dialect number_of_corrections inner_fuel fuel
          (parts ++ [next_part]) next_remainder

/-- `Text::parse` (src/atg.rs): parse a whole string into an ATG text.
The fuel `s.length + 1` suffices for every loop that consumes at least
one scalar per iteration; a `none` result means the source diverges. -/
def Text.parse (D : AtgDialect) (s : List Char) (anchor_dialect : AnchorDialect)
    (number_of_corrections : Nat) : PRes Text :=
  match Part.parse D (s.length + 1) s anchor_dialect number_of_corrections with
  | none => none
  | some (.error x) => some (.error x)
  | some (.ok (first_part, remainder)) =>
    Text.parse_loop D anchor_dialect number_of_corrections (s.length + 1)
      (s.length + 1) [first_part] remainder

/-- `Uncertain<Illegible>::render` (src/atg.rs). -/
def Uncertain.render_illegible (D : AtgDialect) (u : Uncertain) : List Char :=
  match u.proposal with
  | none =>
    D.atg_control_points.illegible :: D.atg_control_points.start_param ::
      (natDecimal u.len ++ [D.atg_control_points.stop_param])
  | some proposal =>
    D.atg_control_points.illegible :: D.atg_control_points.start_param ::
      (natDecimal u.len ++ [D.atg_control_points.stop_param,
        D.atg_control_points.start_param] ++ proposal ++ [D.atg_control_points.stop_param])

/-- `Uncertain<Lacuna>::render` (src/atg.rs). -/
def Uncertain.render_lacuna (D : AtgDialect) (u : Uncertain) : List Char :=
  match u.proposal with
  | none =>
    D.atg_control_points.lacuna :: D.atg_control_points.start_param ::
      (natDecimal u.len ++ [D.atg_control_points.stop_param])
  | some proposal =>
    D.atg_control_points.lacuna :: D.atg_control_points.start_param ::
      (natDecimal u.len ++ [D.atg_control_points.stop_param,
        D.atg_control_points.start_param] ++ proposal ++ [D.atg_control_points.stop_param])

/-- `Present::render` (src/atg.rs). -/
def Present.render (D : AtgDialect) : Present → List Char
  | .Native x => x
  | .Illegible u => u.render_illegible D

/-- `Correction::render` (src/atg.rs). -/
def Correction.render (D : AtgDialect) (c : Correction) : List Char :=
  D.atg_control_points.correction ::
    (c.versions.map (fun v =>
      D.atg_control_points.start_param :: (v.render D ++ [D.atg_control_points.stop_param]))).flatten

/-- `FormatBreak::render` (src/atg.rs). -/
def FormatBreak.render (D : AtgDialect) (f : FormatBreak) : List Char :=
  let body := match f with
    | .Line => "line".toList
    | .Column => "column".toList
    | .Paragraph => "paragraph".toList
    | .Folio => "folio".toList
  D.atg_control_points.format_break :: D.atg_control_points.start_param ::
    (body ++ [D.atg_control_points.stop_param])

/-- `Part::render` (src/atg.rs). -/
def Part.render (D : AtgDialect) : Part → List Char
  | .Native x => x
  | .Illegible u => u.render_illegible D
  | .Lacuna u => u.render_lacuna D
  | .Correction c => c.render D
  | .FormatBreak f => f.render D
  | .Anchor a =>
    D.atg_control_points.anchor :: D.atg_control_points.start_param ::
      (a.render ++ [D.atg_control_points.stop_param])

/-- `Text::render` (src/atg.rs). -/
def Text.render (D : AtgDialect) (t : Text) : List Char :=
  (t.parts.map (Part.render D)).flatten

/-- `UniquePart` (src/atg/normalize/flatten.rs): like `Part` but with no
corrections. -/
inductive UniquePart where
  | Native (s : List Char)
  | Illegible (u : Uncertain)
  | Lacuna (u : Uncertain)
  | FormatBreak (f : FormatBreak)
  | Anchor (a : Anchor)
deriving DecidableEq

/-- `From<Present> for UniquePart` (src/atg/normalize/flatten.rs). -/
def Present.toUniquePart : Present → UniquePart
  | .Native x => .Native x
  | .Illegible u => .Illegible u

/-- `UniqueSurfacePart` (src/atg/normalize.rs): the part kinds that are
represented in the surface text. -/
inductive UniqueSurfacePart where
  | Native (s : List Char)
  | Illegible (u : Uncertain)
  | Lacuna (u : Uncertain)
deriving DecidableEq

/-- `UniquePart::as_surface_part` (src/atg/normalize/flatten.rs). -/
def UniquePart.as_surface_part : UniquePart → Option UniqueSurfacePart
  | .Native x => some (.Native x)
  | .Illegible u => some (.Illegible u)
  | .Lacuna u => some (.Lacuna u)
  | .FormatBreak _ => none
  | .Anchor _ => none

/-- `UniqueText` (src/atg/normalize/flatten.rs). -/
structure UniqueText where
  parts : List UniquePart
deriving DecidableEq

/-- `UniqueText::add_part`. -/
def UniqueText.add_part (t : UniqueText) (p : UniquePart) : UniqueText :=
  ⟨t.parts ++ [p]⟩

/-- `Iterator::max` on a list of naturals (`None` on an empty list). -/
def listMaxNat : List Nat → Option Nat
  | [] => none
  | x :: xs =>
    match listMaxNat xs with
    | none => some x
    | some m => some (Nat.max x m)

/-- One step of the `for part in value.parts` loop of
`From<Text> for Vec<UniqueText>` (src/atg/normalize/flatten.rs):
append one part to all hands.  `none` models the `panic!` raised when a
correction is shorter than the longest correction of the text. -/
def flattenAddPart (num_of_corrections : Nat) (res : List UniqueText) :
    Part → Option (List UniqueText)
  | .Correction x =>
    if x.versions.length < num_of_corrections then none
    else some (res.enum.map (fun (idx, unique_text) =>
      unique_text.add_part ((x.versions.getD idx (.Native [])).toUniquePart)))
  | .Native x => some (res.map (fun t => t.add_part (Present.toUniquePart (.Native x))))
  | .Illegible x => some (res.map (fun t => t.add_part (.Illegible x)))
  | .Lacuna x => some (res.map (fun t => t.add_part (.Lacuna x)))
  | .FormatBreak x => some (res.map (fun t => t.add_part (.FormatBreak x)))
  | .Anchor x => some (res.map (fun t => t.add_part (.Anchor x)))

/-- `From<Text> for Vec<UniqueText>` (src/atg/normalize/flatten.rs):
split a text into one `UniqueText` per corrector's hand. -/
def Text.toUniqueTexts (t : Text) : Option (List UniqueText) :=
  let num_of_corrections :=
    (listMaxNat (t.parts.filterMap (fun p =>
      match p with
      | .Correction x => some x.versions.length
      | _ => none))).getD 1
  t.parts.foldl
    (fun acc part => acc.bind (fun res => flattenAddPart num_of_corrections res part))
    (some (List.replicate num_of_corrections ⟨[]⟩))

/-- `Word` (src/atg/normalize.rs). -/
structure Word where
  parts : List UniqueSurfacePart
deriving DecidableEq

/-- `BoundedWordChain` (src/atg/normalize/tokenize.rs). -/
structure BoundedWordChain where
  left_boundary_divides : Bool
  word_chain : List Word
  right_boundary_divides : Bool
deriving DecidableEq

/-- The item stream of `WordSplitIterator` (src/atg/normalize/tokenize.rs),
with the iterator's pause state flattened into direct emission: the
iterator emits `("", false)` for a divisor met outside a word,
one-scalar items for punctuation, and the accumulated run (closed iff it
was ended by a divisor or punctuation) otherwise.  The first argument is
the run accumulated so far (`none` when not inside a run). -/
def wordSplitItems (D : AtgDialect) : Option (List Char) → List Char → List (List Char × Bool)
  | none, [] => []
  | some acc, [] => [(acc, false)]
  | none, c :: rest =>
    if c = D.word_divisor then ([], false) :: wordSplitItems D none rest
    else if D.punctuation.contains c then ([c], true) :: wordSplitItems D none rest
    else wordSplitItems D (some [c]) rest
  | some acc, c :: rest =>
    if c = D.word_divisor then (acc, true) :: wordSplitItems D none rest
    else if D.punctuation.contains c then (acc, true) :: ([c], true) :: wordSplitItems D none rest
    else wordSplitItems D (some (acc ++ [c])) rest

/-- `split_native_stream` (src/atg/normalize/tokenize.rs). -/
def split_native_stream (D : AtgDialect) (s : List Char) : List (List Char × Bool) :=
  wordSplitItems D none s

/-- The `word_definitely_closed` flag of the last item of the stream;
`none` on an empty stream (where the source's final
`.expect("Each iteration should set the right boundary correctly.")`
panics). -/
def lastItemClosed : List (List Char × Bool) → Option Bool
  | [] => none
  | [item] => some item.2
  | _ :: rest => lastItemClosed rest

/-- `left_boundary_divides` as computed by the item loops of
`UniqueSurfacePart::split_words`: set exactly when the item at index 0
is an empty word. -/
def leftBoundaryOfItems (items : List (List Char × Bool)) : Bool :=
  match items with
  | ([], _) :: _ => true
  | _ => false

/-- The word chain collected by the item loops of
`UniqueSurfacePart::split_words`: one word per non-empty item, built by
`mk`; `none` when `mk` panics (length overflow of a proposal word). -/
def wordChainOfItems (mk : List Char → Option UniqueSurfacePart) :
    List (List Char × Bool) → Option (List Word)
  | [] => some []
  | (word, _) :: rest =>
    match wordChainOfItems mk rest with
    | none => none
    | some chain =>
      if word.isEmpty then some chain
      else
        match mk word with
        | none => none
        | some part => some (⟨[part]⟩ :: chain)

/-- The word constructor of the `Native` arm of
`UniqueSurfacePart::split_words`. -/
def mkNativeWordPart (word : List Char) : Option UniqueSurfacePart :=
  some (.Native word)

/-- The word constructor of the proposal arms of
`UniqueSurfacePart::split_words`: the new `len` is the byte length of the
proposal substring, converted to `u8` by
`try_into().expect("Uncertain Passages can never be longer then u8")`;
the panic is modelled by `none`. -/
def mkProposalWordPart (uncertainKind : Uncertain → UniqueSurfacePart)
    (word : List Char) : Option UniqueSurfacePart :=
  if byteLen word ≤ 255 then some (uncertainKind ⟨byteLen word, some word⟩)
  else none

/-- `UniqueSurfacePart::split_words` (src/atg/normalize/tokenize.rs):
split a single surface part into its constituent words with boundary
information; `none` models the panics (`.expect` on an empty item
stream, proposal-length overflow). -/
def UniqueSurfacePart.split_words (D : AtgDialect) :
    UniqueSurfacePart → Option BoundedWordChain
  | .Native x =>
    let items := split_native_stream D x
    match lastItemClosed items with
    | none => none
    | some right =>
      match wordChainOfItems mkNativeWordPart items with
      | none => none
      | some chain => some ⟨leftBoundaryOfItems items, chain, right⟩
  | .Illegible u =>
    match u.proposal with
    | none => some ⟨true, [⟨[.Illegible u]⟩], true⟩
    | some prop =>
      let items := split_native_stream D prop
      match lastItemClosed items with
      | none => none
      | some right =>
        match wordChainOfItems (mkProposalWordPart .Illegible) items with
        | none => none
        | some chain => some ⟨leftBoundaryOfItems items, chain, right⟩
  | .Lacuna u =>
    match u.proposal with
    | none => some ⟨true, [⟨[.Lacuna u]⟩], true⟩
    | some prop =>
      let items := split_native_stream D prop
      match lastItemClosed items with
      | none => none
      | some right =>
        match wordChainOfItems (mkProposalWordPart .Lacuna) items with
        | none => none
        | some chain => some ⟨leftBoundaryOfItems items, chain, right⟩

/-- `AnchoredUniqueText` (src/atg/normalize/tokenize.rs). -/
structure AnchoredUniqueText where
  text : List Word
  anchor_positions : List (Anchor × Nat)
deriving DecidableEq

/-- Append the parts of `w` to the last word of `ws`
(the `words.last_mut()` match of `UniqueText::split_words`: pushes `w`
when `ws` is empty). -/
def appendToLastWord (ws : List Word) (w : Word) : List Word :=
  match ws with
  | [] => [w]
  | [x] => [⟨x.parts ++ w.parts⟩]
  | x :: rest => x :: appendToLastWord rest w

/-- One step of the `for part in self.parts` loop of
`UniqueText::split_words`.  State: accumulated words, anchor positions,
and `break_after_last` (whether the previous part ended a word).
`none` models the panics of `split_words` and of `Vec::remove(0)` on an
empty word chain. -/
def splitWordsStep (D : AtgDialect)
    (state : List Word × List (Anchor × Nat) × Option Bool) (part : UniquePart) :
    Option (List Word × List (Anchor × Nat) × Option Bool) :=
  let (words, anchors, break_after_last) := state
  match part with
  | .Anchor x => some (words, anchors ++ [(x, words.length)], some true)
  | .FormatBreak _ => some (words, anchors, break_after_last)
  | x =>
    match x.as_surface_part with
    | none => none
    | some surface =>
      match surface.split_words D with
      | none => none
      | some bounded_chain =>
        match break_after_last with
        | some last_part_ended_word =>
          if bounded_chain.left_boundary_divides || last_part_ended_word then
            some (words ++ bounded_chain.word_chain, anchors,
              some bounded_chain.right_boundary_divides)
          else
            match bounded_chain.word_chain with
            | [] => none
            | first_word :: rest_chain =>
              some (appendToLastWord words first_word ++ rest_chain, anchors,
                some bounded_chain.right_boundary_divides)
        | none =>
          some (words ++ bounded_chain.word_chain, anchors,
            some bounded_chain.right_boundary_divides)

/-- `UniqueText::split_words` (src/atg/normalize/tokenize.rs): split a
`UniqueText` into words, recording anchor positions. -/
def UniqueText.split_words (D : AtgDialect) (t : UniqueText) :
    Option AnchoredUniqueText :=
  (t.parts.foldl (fun acc part => acc.bind (fun st => splitWordsStep D st part))
      (some ([], [], none))).map
    (fun (words, anchors, _) => ⟨words, anchors⟩)

/-- `UniqueSurfacePart::supply_uncertain` (src/atg/normalize/flatten.rs):
the plain display string of one surface part. -/
def UniqueSurfacePart.supply_uncertain (D : AtgDialect) : UniqueSurfacePart → List Char
  | .Native x => x
  | .Illegible x =>
    match x.proposal with
    | none => List.replicate x.len D.atg_control_points.illegible
    | some p => p
  | .Lacuna x =>
    match x.proposal with
    | none => List.replicate x.len D.atg_control_points.lacuna
    | some p => p

/-- `Word::supply_uncertain` (src/atg/normalize.rs). -/
def Word.supply_uncertain (D : AtgDialect) (w : Word) : Word × List Char :=
  (w, (w.parts.map (UniqueSurfacePart.supply_uncertain D)).flatten)

/-- `AnchoredNormalisedText` (src/atg/normalize/tokenize.rs). -/
structure AnchoredNormalisedText where
  text : List (Word × List Char)
  anchor_positions : List (Anchor × Nat)
deriving DecidableEq

/-- `AnchoredUniqueText::into_anchored_normalised_text`
(src/atg/normalize/tokenize.rs). -/
def AnchoredUniqueText.into_anchored_normalised_text (D : AtgDialect)
    (t : AnchoredUniqueText) : AnchoredNormalisedText :=
  ⟨t.text.map (Word.supply_uncertain D), t.anchor_positions⟩

/-- `Text::auto_normalise` (src/atg.rs): flatten corrections, split each
hand's text into words, and supply surface forms. -/
def Text.auto_normalise (D : AtgDialect) (t : Text) :
    Option (List AnchoredNormalisedText) :=
  match t.toUniqueTexts with
  | none => none
  | some unique_texts =>
    unique_texts.mapM (fun x =>
      (x.split_words D).map (AnchoredUniqueText.into_anchored_normalised_text D))

/-! ## Statement helpers -/

/-- The error location of a parse result, if it is an error. -/
def presErrorLocation {A : Type} : PRes A → Option Nat
  | some (.error e) => some e.location
  | _ => none

/-- The lengths of the uncertain passages of a `Present`. -/
def Present.uncertainLens : Present → List Nat
  | .Native _ => []
  | .Illegible u => [u.len]

/-- The lengths of the uncertain passages of a `Part` (including those
inside correction versions). -/
def Part.uncertainLens : Part → List Nat
  | .Native _ => []
  | .Illegible u => [u.len]
  | .Lacuna u => [u.len]
  | .Correction c => (c.versions.map Present.uncertainLens).flatten
  | .FormatBreak _ => []
  | .Anchor _ => []

/-- The lengths of all uncertain passages of a `Text`. -/
def Text.uncertainLens (t : Text) : List Nat :=
  (t.parts.map Part.uncertainLens).flatten

/-- Whether a part is a correction. -/
def Part.is_correction : Part → Bool
  | .Correction _ => true
  | _ => false

/-- The `UniquePart` corresponding to a non-correction `Part`. -/
def Part.as_unique_part : Part → Option UniquePart
  | .Native s => some (.Native s)
  | .Illegible u => some (.Illegible u)
  | .Lacuna u => some (.Lacuna u)
  | .FormatBreak f => some (.FormatBreak f)
  | .Anchor a => some (.Anchor a)
  | .Correction _ => none

/-- The supplied display forms of an `AnchoredNormalisedText`. -/
def AnchoredNormalisedText.surfaces (t : AnchoredNormalisedText) : List (List Char) :=
  t.text.map (fun ws => ws.2)

/-! ## Normal form and well-formedness, for the parse/render round trip -/

/-- One scalar of parameter or native content that the escape engine
reads through unchanged in the example dialect: not a control point, and
one byte wide. -/
def plainChar (c : Char) : Bool :=
  !exampleAtgDialect.is_control_point c && charBytes c = 1

/-- All scalars of `s` are plain in dialect `D`: not control points (so
in particular not the escape, the parameter delimiters, the comment
point or a non-semantic scalar) and one byte wide.  `parse_native` reads
such a run back verbatim; this includes the word divisor, digits and
punctuation. -/
def plainOnly (D : AtgDialect) (s : List Char) : Bool :=
  s.all (fun c => !D.is_control_point c && charBytes c = 1)

/-- All scalars of `s` are native points of the dialect. -/
def nativeOnly (D : AtgDialect) (s : List Char) : Bool :=
  s.all (fun c => D.native_points.contains c)

/-- A present version that the correction parser can reproduce: a native
run (`parse_correction` reads native parameters only). -/
def wfVersion (D : AtgDialect) : Present → Bool
  | .Native s => nativeOnly D s
  | .Illegible _ => false

/-- Well-formedness of one part for the parse/render round trip with
correction count `n`: native runs consist of plain scalars (not control
points, one byte wide — the word divisor included), uncertain lengths
fit in a `u8` and proposals are native-only (`collect_native_parameter`
rejects anything else with `NotNative`), corrections carry exactly `n`
native-only versions (at least one). -/
def wfPart (D : AtgDialect) (n : Nat) : Part → Bool
  | .Native s => plainOnly D s
  | .Illegible u =>
    decide (u.len ≤ 255) &&
      (match u.proposal with
       | none => true
       | some p => nativeOnly D p)
  | .Lacuna u =>
    decide (u.len ≤ 255) &&
      (match u.proposal with
       | none => true
       | some p => nativeOnly D p)
  | .Correction c =>
    decide (c.versions.length = n) && decide (1 ≤ c.versions.length) &&
      c.versions.all (wfVersion D)
  | .FormatBreak _ => true
  | .Anchor _ => true

/-- Well-formedness of a whole text. -/
def wfText (D : AtgDialect) (n : Nat) (t : Text) : Bool :=
  t.parts.all (wfPart D n)

/-- Prepend a native run onto a part list, coalescing with a leading
native part and dropping the run when it is empty. -/
def consNative (s : List Char) : List Part → List Part
  | .Native s2 :: r2 => .Native (s ++ s2) :: r2
  | r2 => if s.isEmpty then r2 else .Native s :: r2

/-- Coalesce adjacent native parts and drop empty native parts. -/
def coalesceParts : List Part → List Part
  | [] => []
  | .Native s :: rest => consNative s (coalesceParts rest)
  | p :: rest => p :: coalesceParts rest

/-- Normalise an empty proposal to an absent one (the parser treats
`()` and no second parameter alike). -/
def normProposal : Option (List Char) → Option (List Char)
  | some [] => none
  | p => p

/-- The proposal normalisation, applied to one part. -/
def propNormPart : Part → Part
  | .Illegible u => .Illegible ⟨u.len, normProposal u.proposal⟩
  | .Lacuna u => .Lacuna ⟨u.len, normProposal u.proposal⟩
  | p => p

/-- The normal form in which a well-formed text is recovered by
`parse ∘ render`: adjacent native parts coalesced, empty native parts
dropped, empty proposals normalised to absent ones, and the empty part
list replaced by the parser's `[Native("")]` sentinel. -/
def Text.parseNormalForm (t : Text) : Text :=
  match (coalesceParts t.parts).map propNormPart with
  | [] => ⟨[.Native []]⟩
  | ps => ⟨ps⟩

/-- The rendering of a list of parts in the example dialect. -/
def renderParts (ps : List Part) : List Char :=
  (ps.map (Part.render exampleAtgDialect)).flatten

/-- The rendering of correction versions (the body of
`Correction::render` after the correction control point). -/
def versionsRender (vs : List Present) : List Char :=
  (vs.map (fun v =>
    exampleAtgDialect.atg_control_points.start_param ::
      (v.render exampleAtgDialect ++
        [exampleAtgDialect.atg_control_points.stop_param]))).flatten

/-- The parameter body of a format break (the four literal strings of
`FormatBreak::render` / `FormatBreak::parse`). -/
def fbBody : FormatBreak → List Char
  | .Line => "line".toList
  | .Column => "column".toList
  | .Paragraph => "paragraph".toList
  | .Folio => "folio".toList

/-- Whether a part list does not begin with a native part. -/
def notNativeHead : List Part → Bool
  | .Native _ :: _ => false
  | _ => true

/-- A part list with no empty native part and no two adjacent native
parts (the shape produced by `coalesceParts`). -/
def coalescedB : List Part → Bool
  | [] => true
  | .Native s :: rest => !s.isEmpty && notNativeHead rest && coalescedB rest
  | _ :: rest => coalescedB rest

/-- A string boundary at which the escape engine can read one scalar and
a parameter collector reports `MissingParameterStart`: empty, or headed
by a scalar that is not the escape, not the parameter start, and either
one byte wide or not final. -/
def okBoundary (s : List Char) : Prop :=
  s = [] ∨ ∃ c r, s = c :: r ∧
    c ≠ exampleAtgDialect.atg_control_points.escape ∧
    c ≠ exampleAtgDialect.atg_control_points.start_param ∧
    (charBytes c = 1 ∨ r ≠ [])

/-- A string boundary at which `parse_native` stops: empty, or headed by
a control point that is neither the comment control point nor
non-semantic (and that the escape engine reads as itself). -/
def okCtrlBoundary (s : List Char) : Prop :=
  s = [] ∨ ∃ c r, s = c :: r ∧
    c ≠ exampleAtgDialect.atg_control_points.escape ∧
    exampleAtgDialect.is_control_point c = true ∧
    c ≠ exampleAtgDialect.atg_control_points.comment ∧
    exampleAtgDialect.is_non_semantic c = false ∧
    (charBytes c = 1 ∨ r ≠ [])

/-! ## Helper lemmas -/

theorem byteLen_cons (c : Char) (s : List Char) :
    byteLen (c :: s) = charBytes c + byteLen s := by
  simp [byteLen]

theorem native_points_all_plainChar :
    exampleAtgDialect.native_points.all plainChar = true := by decide

theorem exD_escape : exampleAtgDialect.atg_control_points.escape = '\\' := rfl

theorem exD_start : exampleAtgDialect.atg_control_points.start_param = '(' := rfl

theorem exD_stop : exampleAtgDialect.atg_control_points.stop_param = ')' := rfl

theorem exD_ill : exampleAtgDialect.atg_control_points.illegible = '^' := rfl

theorem exD_lac : exampleAtgDialect.atg_control_points.lacuna = '~' := rfl

theorem exD_anc : exampleAtgDialect.atg_control_points.anchor = '§' := rfl

theorem exD_fb : exampleAtgDialect.atg_control_points.format_break = '/' := rfl

theorem exD_corr : exampleAtgDialect.atg_control_points.correction = '&' := rfl

theorem exD_comment : exampleAtgDialect.atg_control_points.comment = '#' := rfl

theorem nativeOnly_plainChar (s : List Char)
    (h : nativeOnly exampleAtgDialect s = true) : s.all plainChar = true := by
  unfold nativeOnly at h
  rw [List.all_eq_true] at h ⊢
  intro c hc
  have hmem : c ∈ exampleAtgDialect.native_points := by simpa using h c hc
  exact List.all_eq_true.mp native_points_all_plainChar c hmem

theorem plainOnly_example (s : List Char) :
    plainOnly exampleAtgDialect s = s.all plainChar := rfl

theorem plainChar_not_ctrl (c : Char) (h : plainChar c = true) :
    exampleAtgDialect.is_control_point c = false := by
  simp [plainChar] at h
  exact h.1

theorem plainChar_bytes (c : Char) (h : plainChar c = true) : charBytes c = 1 := by
  simp [plainChar] at h
  exact h.2

theorem plainChar_ne_ctrl (c : Char) (h : plainChar c = true) (d : Char)
    (hd : exampleAtgDialect.is_control_point d = true) : c ≠ d := by
  intro hcd
  rw [hcd] at h
  exact absurd hd (by simp [plainChar_not_ctrl d h])

theorem escape_one_plain (c : Char) (rest : List Char)
    (hc : c ≠ exampleAtgDialect.atg_control_points.escape)
    (hb : charBytes c = 1 ∨ rest ≠ []) :
    escape_one_if_required exampleAtgDialect (c :: rest) =
      some (.ok (c, rest, charBytes c)) := by
  unfold escape_one_if_required
  rcases hb with hb | hb
  · simp [hc, hb]
  · simp [hc, List.isEmpty_iff, hb]

theorem escape_until_next_run (s : List Char) (hs : s.all plainChar = true)
    (acc rest : List Char) (off fuel : Nat) (hf : s.length < fuel) :
    escape_until_next_loop exampleAtgDialect ')' fuel acc (s ++ ')' :: rest) off =
      some (.ok (acc ++ s, rest, off + byteLen s + 1)) := by
  induction s generalizing acc off fuel with
  | nil =>
    rcases fuel with - | f
    · omega
    have h1 : charBytes ')' = 1 := by decide
    rw [escape_until_next_loop]
    simp only [List.nil_append, List.isEmpty_cons, Bool.false_eq_true, if_false]
    rw [escape_one_plain ')' rest (by decide) (Or.inl h1), h1]
    simp [byteLen]
  | cons c s' ih =>
    simp only [List.all_cons, Bool.and_eq_true] at hs
    obtain ⟨hc, hs'⟩ := hs
    rcases fuel with - | f
    · omega
    rw [List.cons_append, escape_until_next_loop]
    rw [escape_one_plain c (s' ++ ')' :: rest) (plainChar_ne_ctrl c hc _ (by decide))
      (Or.inl (plainChar_bytes c hc))]
    simp only [List.isEmpty_cons, Bool.false_eq_true, if_false]
    rw [if_neg (plainChar_ne_ctrl c hc ')' (by decide))]
    rw [ih hs' (acc ++ [c]) (off + charBytes c) f (by simpa using Nat.lt_of_succ_lt_succ hf)]
    rw [plainChar_bytes c hc, byteLen_cons, plainChar_bytes c hc]
    simp [List.append_assoc]
    omega

theorem collect_parameter_run (s rest : List Char) (fuel : Nat)
    (hs : s.all plainChar = true) (hf : s.length < fuel) :
    collect_parameter exampleAtgDialect fuel ('(' :: (s ++ ')' :: rest)) =
      some (.ok (s, rest, byteLen s + 1)) := by
  unfold collect_parameter
  rw [escape_one_plain '(' (s ++ ')' :: rest) (by decide) (Or.inl (by decide))]
  simp only [exD_start, exD_stop, ne_eq, ite_not, if_true, eq_self_iff_true]
  unfold escape_until_next
  rw [escape_until_next_run s hs [] rest 0 fuel hf]
  simp

theorem firstNonNative_none (s : List Char)
    (hs : nativeOnly exampleAtgDialect s = true) (i : Nat) :
    firstNonNative exampleAtgDialect s i = none := by
  induction s generalizing i with
  | nil => rfl
  | cons c s' ih =>
    simp only [nativeOnly, List.all_cons, Bool.and_eq_true] at hs
    unfold firstNonNative
    rw [if_pos hs.1]
    exact ih (by simpa [nativeOnly] using hs.2) _

theorem collect_native_parameter_run (s rest : List Char) (fuel : Nat)
    (hs : nativeOnly exampleAtgDialect s = true) (hf : s.length < fuel) :
    collect_native_parameter exampleAtgDialect fuel ('(' :: (s ++ ')' :: rest)) =
      some (.ok (s, rest, byteLen s + 1)) := by
  unfold collect_native_parameter
  rw [collect_parameter_run s rest fuel (nativeOnly_plainChar s hs) hf]
  simp [firstNonNative_none s hs 0]

theorem collect_native_parameter_missing (s : List Char) (h : okBoundary s)
    (fuel : Nat) :
    collect_native_parameter exampleAtgDialect fuel s =
      some (.error ⟨0, .MissingParameterStart⟩) := by
  rcases h with rfl | ⟨c, r, rfl, hesc, hstart, hb⟩
  · rfl
  unfold collect_native_parameter collect_parameter
  rw [escape_one_plain c r hesc hb]
  simp [hstart]

set_option maxRecDepth 8192 in
theorem natDecimal_plain : ∀ m, m < 256 → (natDecimal m).all plainChar = true := by
  decide

set_option maxRecDepth 8192 in
theorem natDecimal_parseU8 : ∀ m, m < 256 → parseU8 (natDecimal m) = some m := by
  decide

theorem uncertain_parse_none (len : Nat) (hlen : len < 256) (rest : List Char)
    (hrest : okBoundary rest) (fuel : Nat) (hf : (natDecimal len).length < fuel) :
    Uncertain.parse exampleAtgDialect fuel ('(' :: (natDecimal len ++ ')' :: rest)) =
      some (.ok (⟨len, none⟩, rest)) := by
  unfold Uncertain.parse
  rw [escape_one_plain '(' _ (by decide) (Or.inl (by decide))]
  simp only [exD_start, exD_stop, ne_eq, ite_not, if_true, eq_self_iff_true]
  unfold escape_until_next
  rw [escape_until_next_run (natDecimal len) (natDecimal_plain len hlen) [] rest 0 fuel hf]
  simp only [List.nil_append]
  rw [natDecimal_parseU8 len hlen]
  rcases hrest with rfl | ⟨c, r, rfl, hesc, hstart, hb⟩
  · simp
  · simp only [List.isEmpty_cons, Bool.false_eq_true, if_false]
    rw [collect_native_parameter_missing (c :: r) (Or.inr ⟨c, r, rfl, hesc, hstart, hb⟩) fuel]
    try simp

theorem uncertain_parse_prop (len : Nat) (hlen : len < 256) (p rest : List Char)
    (hp : nativeOnly exampleAtgDialect p = true) (fuel : Nat)
    (hfd : (natDecimal len).length < fuel) (hfp : p.length < fuel) :
    Uncertain.parse exampleAtgDialect fuel
        ('(' :: (natDecimal len ++ ')' :: '(' :: (p ++ ')' :: rest))) =
      some (.ok (⟨len, if p.isEmpty then none else some p⟩, rest)) := by
  unfold Uncertain.parse
  rw [escape_one_plain '(' _ (by decide) (Or.inl (by decide))]
  simp only [exD_start, exD_stop, ne_eq, ite_not, if_true, eq_self_iff_true]
  unfold escape_until_next
  rw [escape_until_next_run (natDecimal len) (natDecimal_plain len hlen) []
    ('(' :: (p ++ ')' :: rest)) 0 fuel hfd]
  simp only [List.nil_append]
  rw [natDecimal_parseU8 len hlen]
  simp only [List.isEmpty_cons, Bool.false_eq_true, if_false]
  rw [collect_native_parameter_run p rest fuel hp hfp]
  try simp

theorem format_break_parse_run (f : FormatBreak) (rest : List Char) (fuel : Nat)
    (hf : (fbBody f).length < fuel) :
    FormatBreak.parse exampleAtgDialect fuel ('(' :: (fbBody f ++ ')' :: rest)) =
      some (.ok (f, rest)) := by
  cases f <;>
    (unfold FormatBreak.parse
     rw [collect_parameter_run _ rest fuel (by decide) (by simpa [fbBody] using hf)]
     try simp [fbBody])

theorem parse_anchor_run (a : Anchor) (rest : List Char) (fuel : Nat)
    (hf : 1 < fuel) :
    Part.parse_anchor exampleAtgDialect fuel ('(' :: (Anchor.render a ++ ')' :: rest))
      .example = some (.ok (a, rest)) := by
  rcases a with ⟨e⟩
  cases e
  · unfold Part.parse_anchor
    rw [show Anchor.render (.example .one) = ['1'] from rfl,
      collect_parameter_run ['1'] rest fuel (by decide) (by simpa using hf)]
    try simp [show AnchorDialect.parse .example ['1'] = .ok (Anchor.example .one) from by decide]
  · unfold Part.parse_anchor
    rw [show Anchor.render (.example .two) = ['2'] from rfl,
      collect_parameter_run ['2'] rest fuel (by decide) (by simpa using hf)]
    try simp [show AnchorDialect.parse .example ['2'] = .ok (Anchor.example .two) from by decide]

theorem versionsRender_nil : versionsRender [] = [] := rfl

theorem versionsRender_cons (sv : List Char) (vs : List Present) :
    versionsRender (.Native sv :: vs) =
      '(' :: (sv ++ ')' :: versionsRender vs) := by
  simp [versionsRender, Present.render, exD_start, exD_stop]

theorem correction_parse_loop_run (vs : List Present) :
    ∀ (n : Nat) (acc : List Present) (rest : List Char) (off fuel : Nat),
    vs.all (wfVersion exampleAtgDialect) = true →
    okBoundary rest →
    acc.length + vs.length = n →
    (versionsRender vs).length < fuel →
    Correction.parse_loop exampleAtgDialect n fuel acc (versionsRender vs ++ rest) off =
      some (.ok (⟨acc ++ vs⟩, rest)) := by
  induction vs with
  | nil =>
    intro n acc rest off fuel hvs hrest hn hfuel
    rcases fuel with - | f
    · omega
    have hacc : acc.length = n := by simpa using hn
    rw [versionsRender_nil, List.nil_append, Correction.parse_loop,
      collect_native_parameter_missing rest hrest f]
    simp [hacc]
  | cons v vs' ih =>
    intro n acc rest off fuel hvs hrest hn hfuel
    rcases v with sv | u
    swap
    · simp [List.all_cons, wfVersion] at hvs
    simp only [List.all_cons, Bool.and_eq_true] at hvs
    obtain ⟨hsv, hvs'⟩ := hvs
    rcases fuel with - | f
    · omega
    rw [versionsRender_cons] at hfuel ⊢
    simp only [List.length_cons, List.length_append, List.length_cons] at hfuel
    rw [Correction.parse_loop, List.cons_append, List.append_assoc]
    simp only [List.cons_append]
    rw [collect_native_parameter_run sv (versionsRender vs' ++ rest) f
      (by simpa [wfVersion] using hsv) (by omega)]
    simp only []
    rw [ih n (acc ++ [Present.Native sv]) rest (off + (byteLen sv + 1)) f hvs' hrest
      (by simp at hn ⊢; omega) (by omega)]
    simp

theorem correction_parse_run (vs : List Present) (n : Nat) (rest : List Char)
    (fuel : Nat)
    (hvs : vs.all (wfVersion exampleAtgDialect) = true)
    (hne : vs ≠ [])
    (hrest : okBoundary rest)
    (hn : vs.length = n)
    (hfuel : (versionsRender vs).length < fuel) :
    Correction.parse exampleAtgDialect fuel (versionsRender vs ++ rest) n =
      some (.ok (⟨vs⟩, rest)) := by
  rcases vs with - | ⟨v, vs'⟩
  · exact absurd rfl hne
  rcases v with sv | u
  swap
  · simp [List.all_cons, wfVersion] at hvs
  simp only [List.all_cons, Bool.and_eq_true] at hvs
  obtain ⟨hsv, hvs'⟩ := hvs
  rw [versionsRender_cons] at hfuel ⊢
  simp only [List.length_cons, List.length_append] at hfuel
  unfold Correction.parse
  rw [List.cons_append, List.append_assoc]
  simp only [List.cons_append]
  rw [collect_native_parameter_run sv (versionsRender vs' ++ rest) fuel
    (by simpa [wfVersion] using hsv) (by omega)]
  simp only []
  rw [correction_parse_loop_run vs' n [Present.Native sv] rest 0 fuel
    hvs' hrest (by simp at hn ⊢; omega) (by omega)]
  simp

theorem escape_until_ctrl_run_nil (s : List Char) (hs : s.all plainChar = true)
    (acc : List Char) (off fuel : Nat) (hf : s.length < fuel) :
    escape_until_control_point_loop exampleAtgDialect fuel acc s off =
      some (.ok (acc ++ s, none, [], 0)) := by
  induction s generalizing acc off fuel with
  | nil =>
    rcases fuel with - | f
    · omega
    rw [escape_until_control_point_loop]
    simp
  | cons c s' ih =>
    simp only [List.all_cons, Bool.and_eq_true] at hs
    obtain ⟨hc, hs'⟩ := hs
    rcases fuel with - | f
    · omega
    rw [escape_until_control_point_loop]
    simp only [List.isEmpty_cons, Bool.false_eq_true, if_false]
    rw [escape_one_plain c s' (plainChar_ne_ctrl c hc _ (by decide))
      (Or.inl (plainChar_bytes c hc))]
    simp only [plainChar_not_ctrl c hc, Bool.false_eq_true, if_false]
    rw [ih hs' (acc ++ [c]) (off + charBytes c) f (by simpa using Nat.lt_of_succ_lt_succ hf)]
    simp

theorem escape_until_ctrl_run_ctrl (s : List Char) (hs : s.all plainChar = true)
    (c2 : Char) (r2 : List Char)
    (hc2 : c2 ≠ exampleAtgDialect.atg_control_points.escape)
    (hctrl : exampleAtgDialect.is_control_point c2 = true)
    (hb2 : charBytes c2 = 1 ∨ r2 ≠ [])
    (acc : List Char) (off fuel : Nat) (hf : s.length < fuel) :
    escape_until_control_point_loop exampleAtgDialect fuel acc (s ++ c2 :: r2) off =
      some (.ok (acc ++ s, some c2, c2 :: r2, off + byteLen s + charBytes c2)) := by
  induction s generalizing acc off fuel with
  | nil =>
    rcases fuel with - | f
    · omega
    rw [escape_until_control_point_loop]
    simp only [List.nil_append, List.isEmpty_cons, Bool.false_eq_true, if_false]
    rw [escape_one_plain c2 r2 hc2 hb2]
    simp [hctrl, byteLen]
  | cons c s' ih =>
    simp only [List.all_cons, Bool.and_eq_true] at hs
    obtain ⟨hc, hs'⟩ := hs
    rcases fuel with - | f
    · omega
    rw [List.cons_append, escape_until_control_point_loop]
    simp only [List.isEmpty_cons, Bool.false_eq_true, if_false]
    rw [escape_one_plain c (s' ++ c2 :: r2) (plainChar_ne_ctrl c hc _ (by decide))
      (Or.inl (plainChar_bytes c hc))]
    simp only [plainChar_not_ctrl c hc, Bool.false_eq_true, if_false]
    rw [ih hs' (acc ++ [c]) (off + charBytes c) f (by simpa using Nat.lt_of_succ_lt_succ hf)]
    rw [plainChar_bytes c hc, byteLen_cons, plainChar_bytes c hc]
    simp [List.append_assoc]
    omega

theorem parse_native_run (sN : List Char) (hs : sN.all plainChar = true)
    (hne : sN ≠ []) (rest : List Char) (hrest : okCtrlBoundary rest)
    (fuel : Nat) (hf : sN.length < fuel) :
    Part.parse_native exampleAtgDialect fuel (sN ++ rest) =
      some (.ok (.Native sN, rest)) := by
  have hfuel1 : ∃ f, fuel = f + 1 := by
    rcases fuel with - | f
    · omega
    · exact ⟨f, rfl⟩
  unfold Part.parse_native
  rw [if_neg (by simp [List.isEmpty_iff]; rcases sN with - | ⟨c, s'⟩; exact absurd rfl hne; simp)]
  unfold escape_until_control_point
  rcases hrest with rfl | ⟨c2, r2, rfl, hesc2, hctrl2, hcom2, hnons2, hb2⟩
  · rw [List.append_nil]
    rw [escape_until_ctrl_run_nil sN hs [] 0 fuel hf]
    obtain ⟨f, rfl⟩ := hfuel1
    unfold Part.parse_native_loop
    simp
  · rw [escape_until_ctrl_run_ctrl sN hs c2 r2 hesc2 hctrl2 hb2 [] 0 fuel hf]
    obtain ⟨f, rfl⟩ := hfuel1
    simp only [List.nil_append]
    unfold Part.parse_native_loop
    simp only [exD_comment] at hcom2 ⊢
    rw [if_neg hcom2]
    simp [hnons2, AtgDialect.is_non_semantic] at hnons2 ⊢
    simp [hnons2]

theorem render_native_shape (s : List Char) :
    Part.render exampleAtgDialect (.Native s) = s := rfl

theorem render_illegible_none_shape (len : Nat) :
    Part.render exampleAtgDialect (.Illegible ⟨len, none⟩) =
      '^' :: '(' :: (natDecimal len ++ [')']) := rfl

theorem render_illegible_some_shape (len : Nat) (p : List Char) :
    Part.render exampleAtgDialect (.Illegible ⟨len, some p⟩) =
      '^' :: '(' :: (natDecimal len ++ [')', '('] ++ p ++ [')']) := rfl

theorem render_lacuna_none_shape (len : Nat) :
    Part.render exampleAtgDialect (.Lacuna ⟨len, none⟩) =
      '~' :: '(' :: (natDecimal len ++ [')']) := rfl

theorem render_lacuna_some_shape (len : Nat) (p : List Char) :
    Part.render exampleAtgDialect (.Lacuna ⟨len, some p⟩) =
      '~' :: '(' :: (natDecimal len ++ [')', '('] ++ p ++ [')']) := rfl

theorem render_format_break_shape (f : FormatBreak) :
    Part.render exampleAtgDialect (.FormatBreak f) =
      '/' :: '(' :: (fbBody f ++ [')']) := by
  cases f <;> rfl

theorem render_anchor_shape (a : Anchor) :
    Part.render exampleAtgDialect (.Anchor a) =
      '§' :: '(' :: (a.render ++ [')']) := rfl

theorem render_correction_shape (c : Correction) :
    Part.render exampleAtgDialect (.Correction c) =
      '&' :: versionsRender c.versions := rfl

theorem renderParts_cons (p : Part) (ps : List Part) :
    renderParts (p :: ps) = Part.render exampleAtgDialect p ++ renderParts ps := by
  simp [renderParts]

theorem okBoundary_cons (c : Char) (r : List Char)
    (h1 : c ≠ exampleAtgDialect.atg_control_points.escape)
    (h2 : c ≠ exampleAtgDialect.atg_control_points.start_param)
    (h3 : charBytes c = 1 ∨ r ≠ []) : okBoundary (c :: r) :=
  Or.inr ⟨c, r, rfl, h1, h2, h3⟩

theorem okCtrlBoundary_cons (c : Char) (r : List Char)
    (h1 : c ≠ exampleAtgDialect.atg_control_points.escape)
    (h2 : exampleAtgDialect.is_control_point c = true)
    (h3 : c ≠ exampleAtgDialect.atg_control_points.comment)
    (h4 : exampleAtgDialect.is_non_semantic c = false)
    (h5 : charBytes c = 1 ∨ r ≠ []) : okCtrlBoundary (c :: r) :=
  Or.inr ⟨c, r, rfl, h1, h2, h3, h4, h5⟩

theorem renderParts_okBoundary (ps : List Part) (n : Nat)
    (hwf : ps.all (wfPart exampleAtgDialect n) = true)
    (hco : coalescedB ps = true) :
    okBoundary (renderParts ps) := by
  rcases ps with - | ⟨p0, ps'⟩
  · exact Or.inl rfl
  simp only [List.all_cons, Bool.and_eq_true] at hwf
  obtain ⟨hwf0, -⟩ := hwf
  rw [renderParts_cons]
  rcases p0 with s | ⟨len, prop⟩ | ⟨len, prop⟩ | c | f | a
  · -- native: non-empty by coalescedness, first scalar is a native point
    simp only [coalescedB, Bool.and_eq_true, Bool.not_eq_true'] at hco
    rcases s with - | ⟨c0, s'⟩
    · simp at hco
    have hc0 : plainChar c0 = true := by
      have h : (c0 :: s').all plainChar = true := hwf0
      simp only [List.all_cons, Bool.and_eq_true] at h
      exact h.1
    rw [render_native_shape, List.cons_append]
    exact okBoundary_cons c0 _ (plainChar_ne_ctrl c0 hc0 _ (by decide))
      (plainChar_ne_ctrl c0 hc0 _ (by decide)) (Or.inl (plainChar_bytes c0 hc0))
  · rcases prop with - | p
    · rw [render_illegible_none_shape, List.cons_append]
      exact okBoundary_cons '^' _ (by decide) (by decide) (Or.inl (by decide))
    · rw [render_illegible_some_shape, List.cons_append]
      exact okBoundary_cons '^' _ (by decide) (by decide) (Or.inl (by decide))
  · rcases prop with - | p
    · rw [render_lacuna_none_shape, List.cons_append]
      exact okBoundary_cons '~' _ (by decide) (by decide) (Or.inl (by decide))
    · rw [render_lacuna_some_shape, List.cons_append]
      exact okBoundary_cons '~' _ (by decide) (by decide) (Or.inl (by decide))
  · rw [render_correction_shape, List.cons_append]
    exact okBoundary_cons '&' _ (by decide) (by decide) (Or.inl (by decide))
  · rw [render_format_break_shape, List.cons_append]
    exact okBoundary_cons '/' _ (by decide) (by decide) (Or.inl (by decide))
  · rw [render_anchor_shape, List.cons_append]
    exact okBoundary_cons '§' _ (by decide) (by decide) (Or.inr (by simp))

theorem renderParts_okCtrlBoundary (ps : List Part) (n : Nat)
    (hwf : ps.all (wfPart exampleAtgDialect n) = true)
    (hnn : notNativeHead ps = true) :
    okCtrlBoundary (renderParts ps) := by
  rcases ps with - | ⟨p0, ps'⟩
  · exact Or.inl rfl
  rw [renderParts_cons]
  rcases p0 with s | ⟨len, prop⟩ | ⟨len, prop⟩ | c | f | a
  · simp [notNativeHead] at hnn
  · rcases prop with - | p
    · rw [render_illegible_none_shape, List.cons_append]
      exact okCtrlBoundary_cons '^' _ (by decide) (by decide) (by decide) (by decide)
        (Or.inl (by decide))
    · rw [render_illegible_some_shape, List.cons_append]
      exact okCtrlBoundary_cons '^' _ (by decide) (by decide) (by decide) (by decide)
        (Or.inl (by decide))
  · rcases prop with - | p
    · rw [render_lacuna_none_shape, List.cons_append]
      exact okCtrlBoundary_cons '~' _ (by decide) (by decide) (by decide) (by decide)
        (Or.inl (by decide))
    · rw [render_lacuna_some_shape, List.cons_append]
      exact okCtrlBoundary_cons '~' _ (by decide) (by decide) (by decide) (by decide)
        (Or.inl (by decide))
  · rw [render_correction_shape, List.cons_append]
    exact okCtrlBoundary_cons '&' _ (by decide) (by decide) (by decide) (by decide)
      (Or.inl (by decide))
  · rw [render_format_break_shape, List.cons_append]
    exact okCtrlBoundary_cons '/' _ (by decide) (by decide) (by decide) (by decide)
      (Or.inl (by decide))
  · rw [render_anchor_shape, List.cons_append]
    exact okCtrlBoundary_cons '§' _ (by decide) (by decide) (by decide) (by decide)
      (Or.inr (by simp))

theorem normProposal_some (p : List Char) :
    normProposal (some p) = if p.isEmpty then none else some p := by
  cases p <;> rfl

theorem coalescedB_tail (p : Part) (rest : List Part)
    (h : coalescedB (p :: rest) = true) : coalescedB rest = true := by
  rcases p with s | u | u | c | f | a
  · simp only [coalescedB, Bool.and_eq_true] at h
    exact h.2
  all_goals simpa [coalescedB] using h

theorem part_parse_render_first (p : Part) (rest : List Part) (n : Nat) (fuel : Nat)
    (hwf : wfPart exampleAtgDialect n p = true)
    (hco : coalescedB (p :: rest) = true)
    (hwfr : rest.all (wfPart exampleAtgDialect n) = true)
    (hfuel : (Part.render exampleAtgDialect p).length + (renderParts rest).length < fuel) :
    Part.parse exampleAtgDialect fuel
        (Part.render exampleAtgDialect p ++ renderParts rest) .example n =
      some (.ok (propNormPart p, renderParts rest)) := by
  rcases p with s | ⟨len, prop⟩ | ⟨len, prop⟩ | c | f | a
  · -- a native run
    simp only [coalescedB, Bool.and_eq_true, Bool.not_eq_true'] at hco
    obtain ⟨⟨hse, hnn⟩, hco'⟩ := hco
    rcases s with - | ⟨c0, s'⟩
    · simp at hse
    have hplain : (c0 :: s').all plainChar = true := hwf
    have hc0 : plainChar c0 = true := by
      simp only [List.all_cons, Bool.and_eq_true] at hplain
      exact hplain.1
    rw [render_native_shape]
    unfold Part.parse
    rw [if_neg (by simp)]
    rw [List.cons_append]
    rw [escape_one_plain c0 (s' ++ renderParts rest)
      (plainChar_ne_ctrl c0 hc0 _ (by decide)) (Or.inl (plainChar_bytes c0 hc0))]
    simp only [exD_ill, exD_lac, exD_anc, exD_fb, exD_corr, exD_comment,
      plainChar_ne_ctrl c0 hc0 '^' (by decide), plainChar_ne_ctrl c0 hc0 '~' (by decide),
      plainChar_ne_ctrl c0 hc0 '§' (by decide), plainChar_ne_ctrl c0 hc0 '/' (by decide),
      plainChar_ne_ctrl c0 hc0 '&' (by decide), plainChar_ne_ctrl c0 hc0 '#' (by decide),
      if_false]
    rw [← List.cons_append]
    rw [parse_native_run (c0 :: s') hplain (by simp) (renderParts rest)
      (renderParts_okCtrlBoundary rest n hwfr hnn) fuel
      (by simp only [render_native_shape, List.length_cons] at hfuel ⊢; omega)]
    rfl
  · -- an illegible passage
    rcases prop with - | p
    · simp only [wfPart, Bool.and_eq_true, decide_eq_true_eq] at hwf
      have hlen : len < 256 := by omega
      rw [render_illegible_none_shape]
      unfold Part.parse
      rw [if_neg (by simp)]
      simp only [List.cons_append, List.append_assoc, List.singleton_append, List.nil_append]
      rw [escape_one_plain '^' _ (by decide) (Or.inl (by decide))]
      simp only [exD_ill]
      rw [uncertain_parse_none len hlen (renderParts rest)
        (renderParts_okBoundary rest n hwfr (coalescedB_tail _ _ hco)) fuel
        (by simp only [render_illegible_none_shape, List.length_cons, List.length_append,
             List.length_singleton] at hfuel ⊢; omega)]
      rfl
    · simp only [wfPart, Bool.and_eq_true, decide_eq_true_eq] at hwf
      obtain ⟨hlen255, hp⟩ := hwf
      have hlen : len < 256 := by omega
      rw [render_illegible_some_shape]
      unfold Part.parse
      rw [if_neg (by simp)]
      simp only [List.cons_append, List.append_assoc, List.singleton_append, List.nil_append]
      rw [escape_one_plain '^' _ (by decide) (Or.inl (by decide))]
      simp only [exD_ill]
      rw [uncertain_parse_prop len hlen p (renderParts rest) hp fuel
        (by simp only [render_illegible_some_shape, List.length_cons, List.length_append,
             List.length_singleton] at hfuel ⊢; omega)
        (by simp only [render_illegible_some_shape, List.length_cons, List.length_append,
             List.length_singleton] at hfuel ⊢; omega)]
      simp [propNormPart, normProposal_some]
  · -- a lacuna
    rcases prop with - | p
    · simp only [wfPart, Bool.and_eq_true, decide_eq_true_eq] at hwf
      have hlen : len < 256 := by omega
      rw [render_lacuna_none_shape]
      unfold Part.parse
      rw [if_neg (by simp)]
      simp only [List.cons_append, List.append_assoc, List.singleton_append, List.nil_append]
      rw [escape_one_plain '~' _ (by decide) (Or.inl (by decide))]
      simp only [exD_ill, exD_lac, show ('~' = '^') = False from by decide, if_false]
      rw [uncertain_parse_none len hlen (renderParts rest)
        (renderParts_okBoundary rest n hwfr (coalescedB_tail _ _ hco)) fuel
        (by simp only [render_lacuna_none_shape, List.length_cons, List.length_append,
             List.length_singleton] at hfuel ⊢; omega)]
      rfl
    · simp only [wfPart, Bool.and_eq_true, decide_eq_true_eq] at hwf
      obtain ⟨hlen255, hp⟩ := hwf
      have hlen : len < 256 := by omega
      rw [render_lacuna_some_shape]
      unfold Part.parse
      rw [if_neg (by simp)]
      simp only [List.cons_append, List.append_assoc, List.singleton_append, List.nil_append]
      rw [escape_one_plain '~' _ (by decide) (Or.inl (by decide))]
      simp only [exD_ill, exD_lac, show ('~' = '^') = False from by decide, if_false]
      rw [uncertain_parse_prop len hlen p (renderParts rest) hp fuel
        (by simp only [render_lacuna_some_shape, List.length_cons, List.length_append,
             List.length_singleton] at hfuel ⊢; omega)
        (by simp only [render_lacuna_some_shape, List.length_cons, List.length_append,
             List.length_singleton] at hfuel ⊢; omega)]
      simp [propNormPart, normProposal_some]
  · -- a correction
    simp only [wfPart, Bool.and_eq_true, decide_eq_true_eq] at hwf
    obtain ⟨⟨hn1, hn2⟩, hvs⟩ := hwf
    rw [render_correction_shape]
    unfold Part.parse
    rw [if_neg (by simp)]
    rw [List.cons_append]
    rw [escape_one_plain '&' _ (by decide) (Or.inl (by decide))]
    simp only [exD_ill, exD_lac, exD_anc, exD_fb, exD_corr,
      show ('&' = '^') = False from by decide, show ('&' = '~') = False from by decide,
      show ('&' = '§') = False from by decide, show ('&' = '/') = False from by decide,
      if_false]
    rw [correction_parse_run c.versions n (renderParts rest) fuel hvs
      (by intro hx; rw [hx] at hn2; simp at hn2) (renderParts_okBoundary rest n hwfr
        (coalescedB_tail _ _ hco)) hn1
      (by simp only [render_correction_shape, List.length_cons] at hfuel ⊢; omega)]
    rfl
  · -- a format break
    rw [render_format_break_shape]
    unfold Part.parse
    rw [if_neg (by simp)]
    simp only [List.cons_append, List.append_assoc, List.singleton_append, List.nil_append]
    rw [escape_one_plain '/' _ (by decide) (Or.inl (by decide))]
    simp only [exD_ill, exD_lac, exD_anc, exD_fb,
      show ('/' = '^') = False from by decide, show ('/' = '~') = False from by decide,
      show ('/' = '§') = False from by decide, if_false]
    rw [format_break_parse_run f (renderParts rest) fuel
      (by simp only [render_format_break_shape, List.length_cons, List.length_append,
           List.length_singleton] at hfuel ⊢; omega)]
    rfl
  · -- an anchor
    rw [render_anchor_shape]
    unfold Part.parse
    rw [if_neg (by simp)]
    simp only [List.cons_append, List.append_assoc, List.singleton_append, List.nil_append]
    rw [escape_one_plain '§' _ (by decide) (Or.inr (by simp))]
    simp only [exD_ill, exD_lac, exD_anc,
      show ('§' = '^') = False from by decide, show ('§' = '~') = False from by decide,
      if_false]
    rw [parse_anchor_run a (renderParts rest) fuel
      (by simp only [render_anchor_shape, List.length_cons, List.length_append,
           List.length_singleton] at hfuel ⊢; omega)]
    rfl

theorem render_part_ne_nil (p : Part) (rest : List Part)
    (hco : coalescedB (p :: rest) = true) :
    Part.render exampleAtgDialect p ≠ [] := by
  rcases p with s | ⟨len, prop⟩ | ⟨len, prop⟩ | c | f | a
  · simp only [coalescedB, Bool.and_eq_true, Bool.not_eq_true'] at hco
    rcases s with - | ⟨c0, s'⟩
    · simp at hco
    simp [render_native_shape]
  · rcases prop with - | p <;> simp [render_illegible_none_shape, render_illegible_some_shape]
  · rcases prop with - | p <;> simp [render_lacuna_none_shape, render_lacuna_some_shape]
  · simp [render_correction_shape]
  · simp [render_format_break_shape]
  · simp [render_anchor_shape]

theorem text_parse_loop_render (ps : List Part) :
    ∀ (n : Nat) (acc : List Part) (fuel inner : Nat),
    ps.all (wfPart exampleAtgDialect n) = true →
    coalescedB ps = true →
    (renderParts ps).length < fuel →
    (renderParts ps).length < inner →
    Text.parse_loop exampleAtgDialect .example n inner fuel acc (renderParts ps) =
      some (.ok ⟨acc ++ ps.map propNormPart⟩) := by
  induction ps with
  | nil =>
    intro n acc fuel inner _ _ hf _
    rcases fuel with - | f
    · omega
    rw [Text.parse_loop]
    simp [renderParts]
  | cons p rest ih =>
    intro n acc fuel inner hwf hco hf hi
    simp only [List.all_cons, Bool.and_eq_true] at hwf
    obtain ⟨hwf0, hwfr⟩ := hwf
    rcases fuel with - | f
    · omega
    have ha : 0 < (Part.render exampleAtgDialect p).length :=
      List.length_pos.mpr (render_part_ne_nil p rest hco)
    rw [Text.parse_loop, renderParts_cons]
    rw [if_neg (by
      simp only [List.isEmpty_eq_true, List.append_eq_nil]
      rintro ⟨h1, -⟩
      exact render_part_ne_nil p rest hco h1)]
    rw [part_parse_render_first p rest n inner hwf0 hco hwfr
      (by rw [renderParts_cons] at hi; simpa using hi)]
    simp only []
    rw [ih n (acc ++ [propNormPart p]) f inner hwfr (coalescedB_tail _ _ hco)
      (by rw [renderParts_cons] at hf; simp at hf ⊢; omega)
      (by rw [renderParts_cons] at hi; simp at hi ⊢; omega)]
    simp

theorem consNative_render (s : List Char) (l : List Part) :
    renderParts (consNative s l) = s ++ renderParts l := by
  rcases l with - | ⟨p0, l'⟩
  · rcases hse : s.isEmpty with - | -
    · simp [consNative, hse, renderParts, render_native_shape]
    · simp only [consNative, hse, if_true]
      rw [List.isEmpty_eq_true] at hse
      simp [hse, renderParts]
  · rcases p0 with s2 | u | u | c | f | a <;>
      simp only [consNative] <;>
      first
        | (rw [renderParts_cons, renderParts_cons, render_native_shape,
            render_native_shape, List.append_assoc])
        | (rcases hse : s.isEmpty with - | -
           · simp only [Bool.false_eq_true, if_false]
             rw [renderParts_cons, renderParts_cons, render_native_shape]
           · rw [List.isEmpty_eq_true] at hse
             simp [hse])

theorem renderParts_coalesce (ps : List Part) :
    renderParts (coalesceParts ps) = renderParts ps := by
  induction ps with
  | nil => rfl
  | cons p rest ih =>
    rcases p with s | u | u | c | f | a
    · rw [coalesceParts, consNative_render, ih, renderParts_cons, render_native_shape]
    all_goals rw [coalesceParts, renderParts_cons, ih, renderParts_cons]
    all_goals simp

theorem consNative_coalesced (s : List Char) (l : List Part)
    (hl : coalescedB l = true) : coalescedB (consNative s l) = true := by
  rcases l with - | ⟨p0, l'⟩
  · rcases s with - | ⟨c1, s1⟩ <;> simp [consNative, coalescedB, notNativeHead]
  · rcases p0 with s2 | u | u | c | f | a
    · simp only [consNative]
      simp only [coalescedB, Bool.and_eq_true, Bool.not_eq_true'] at hl ⊢
      obtain ⟨⟨h1, h2⟩, h3⟩ := hl
      refine ⟨⟨?_, h2⟩, h3⟩
      rcases s2 with - | ⟨c2, s2'⟩
      · simp at h1
      · rcases s with - | ⟨c1, s1⟩ <;> simp
    all_goals
      (rcases s with - | ⟨c1, s1⟩
       · simpa [consNative] using hl
       · simp only [consNative, List.isEmpty_cons, Bool.false_eq_true, if_false]
         simp_all [coalescedB, notNativeHead])

theorem consNative_wf (s : List Char) (l : List Part) (n : Nat)
    (hs : plainOnly exampleAtgDialect s = true)
    (hl : l.all (wfPart exampleAtgDialect n) = true) :
    (consNative s l).all (wfPart exampleAtgDialect n) = true := by
  rcases l with - | ⟨p0, l'⟩
  · rcases s with - | ⟨c1, s1⟩
    · simp [consNative]
    · simpa [consNative, wfPart] using hs
  · rcases p0 with s2 | u | u | c | f | a
    · simp only [consNative]
      simp only [List.all_cons, Bool.and_eq_true, wfPart] at hl ⊢
      refine ⟨?_, hl.2⟩
      simp only [plainOnly] at hs hl ⊢
      rw [List.all_append, hs, hl.1]
      rfl
    all_goals
      (rcases s with - | ⟨c1, s1⟩
       · simpa [consNative] using hl
       · simp only [consNative, List.isEmpty_cons, Bool.false_eq_true, if_false,
           List.all_cons, Bool.and_eq_true]
         refine ⟨by simpa [wfPart] using hs, ?_⟩
         simpa using hl)

theorem coalesceParts_coalesced (ps : List Part) :
    coalescedB (coalesceParts ps) = true := by
  induction ps with
  | nil => rfl
  | cons p rest ih =>
    rcases p with s | u | u | c | f | a
    · rw [coalesceParts]
      exact consNative_coalesced s _ ih
    all_goals rw [coalesceParts]
    all_goals try exact ih
    all_goals simp

theorem coalesceParts_wf (ps : List Part) (n : Nat)
    (h : ps.all (wfPart exampleAtgDialect n) = true) :
    (coalesceParts ps).all (wfPart exampleAtgDialect n) = true := by
  induction ps with
  | nil => rfl
  | cons p rest ih =>
    simp only [List.all_cons, Bool.and_eq_true] at h
    obtain ⟨h0, hrest⟩ := h
    rcases p with s | u | u | c | f | a
    · rw [coalesceParts]
      exact consNative_wf s _ n (by simpa [wfPart] using h0) (ih hrest)
    all_goals try
      (rw [coalesceParts]
       · simp only [List.all_cons, Bool.and_eq_true]
         exact ⟨h0, ih hrest⟩)
    all_goals simp

theorem lastItemClosed_isSome (items : List (List Char × Bool)) (h : items ≠ []) :
    (lastItemClosed items).isSome := by
  induction items with
  | nil => exact absurd rfl h
  | cons x rest ih =>
    cases rest with
    | nil => simp [lastItemClosed]
    | cons y t => simpa [lastItemClosed] using ih (by simp)

theorem wordChainOfItems_mkNative_isSome (items : List (List Char × Bool)) :
    (wordChainOfItems mkNativeWordPart items).isSome := by
  induction items with
  | nil => simp [wordChainOfItems]
  | cons x rest ih =>
    obtain ⟨chain, hchain⟩ := Option.isSome_iff_exists.mp ih
    obtain ⟨w, b⟩ := x
    by_cases hw : w.isEmpty <;> simp [wordChainOfItems, hchain, hw, mkNativeWordPart]

theorem flattenAddPart_one_nonCorrection (u : UniqueText) (p : Part)
    (hp : p.is_correction = false) :
    ∃ q, p.as_unique_part = some q ∧ flattenAddPart 1 [u] p = some [u.add_part q] := by
  cases p <;>
    simp [flattenAddPart, Part.as_unique_part, Part.is_correction,
      Present.toUniquePart] at hp ⊢

theorem flatten_fold_no_correction (parts : List Part) (u : UniqueText)
    (h : parts.all (fun p => !p.is_correction) = true) :
    parts.foldl (fun acc part => acc.bind (fun res => flattenAddPart 1 res part))
        (some [u]) =
      some [⟨u.parts ++ parts.filterMap Part.as_unique_part⟩] := by
  induction parts generalizing u with
  | nil => simp
  | cons p rest ih =>
    simp only [List.all_cons, Bool.and_eq_true, Bool.not_eq_true'] at h
    obtain ⟨hp, hrest⟩ := h
    obtain ⟨q, hq, hstep⟩ := flattenAddPart_one_nonCorrection u p hp
    have h0 : (p :: rest).foldl
        (fun acc part => acc.bind (fun res => flattenAddPart 1 res part)) (some [u]) =
        rest.foldl (fun acc part => acc.bind (fun res => flattenAddPart 1 res part))
          (flattenAddPart 1 [u] p) := rfl
    rw [h0, hstep, ih _ hrest]
    simp [UniqueText.add_part, List.filterMap_cons, hq, List.append_assoc]

theorem parseU8_le_255 (s : List Char) (v : Nat) (h : parseU8 s = some v) : v ≤ 255 := by
  unfold parseU8 at h
  repeat' split at h
  all_goals simp_all
  all_goals omega

theorem Uncertain_parse_len_le (D : AtgDialect) (fuel : Nat) (s : List Char)
    (u : Uncertain) (r : List Char)
    (h : Uncertain.parse D fuel s = some (.ok (u, r))) : u.len ≤ 255 := by
  unfold Uncertain.parse at h
  repeat' split at h
  all_goals injections
  all_goals subst_vars
  all_goals exact parseU8_le_255 _ _ (by assumption)

theorem Part_parse_native_loop_is_native (D : AtgDialect) (fuel : Nat)
    (res : List Char) (mc : Option Char) (rem : List Char) (off : Nat)
    (p : Part) (r : List Char)
    (h : Part.parse_native_loop D fuel res mc rem off = some (.ok (p, r))) :
    ∃ s', p = .Native s' := by
  induction fuel generalizing res mc rem off with
  | zero => exact absurd h (by simp [Part.parse_native_loop])
  | succ n ih =>
    unfold Part.parse_native_loop at h
    repeat' split at h
    all_goals try injections
    all_goals try subst_vars
    all_goals first
      | exact ⟨_, rfl⟩
      | exact ih _ _ _ _ h

theorem Part_parse_native_is_native (D : AtgDialect) (fuel : Nat) (s : List Char)
    (p : Part) (r : List Char)
    (h : Part.parse_native D fuel s = some (.ok (p, r))) : ∃ s', p = .Native s' := by
  unfold Part.parse_native at h
  repeat' split at h
  all_goals try injections
  all_goals try subst_vars
  all_goals first
    | exact ⟨_, rfl⟩
    | exact Part_parse_native_loop_is_native _ _ _ _ _ _ _ _ h

theorem Correction_parse_loop_no_uncertain (D : AtgDialect) (n : Nat) (fuel : Nat)
    (versions : List Present) (remainder : List Char) (offset : Nat)
    (c : Correction) (r : List Char)
    (h : Correction.parse_loop D n fuel versions remainder offset = some (.ok (c, r)))
    (hv : (versions.map Present.uncertainLens).flatten = []) :
    (c.versions.map Present.uncertainLens).flatten = [] := by
  induction fuel generalizing versions remainder offset with
  | zero => exact absurd h (by simp [Correction.parse_loop])
  | succ nn ih =>
    have hext : ∀ param : List Char,
        ((versions ++ [Present.Native param]).map Present.uncertainLens).flatten = [] := by
      intro param
      simp [hv, Present.uncertainLens]
    unfold Correction.parse_loop at h
    repeat' split at h
    all_goals try injections
    all_goals try subst_vars
    all_goals first
      | exact hv
      | exact ih _ _ _ h (hext _)

theorem Correction_parse_no_uncertain (D : AtgDialect) (fuel : Nat) (s : List Char)
    (n : Nat) (c : Correction) (r : List Char)
    (h : Correction.parse D fuel s n = some (.ok (c, r))) :
    (c.versions.map Present.uncertainLens).flatten = [] := by
  unfold Correction.parse at h
  repeat' split at h
  all_goals try injections
  all_goals exact Correction_parse_loop_no_uncertain _ _ _ _ _ _ _ _ h (by simp [Present.uncertainLens])

theorem Part_parse_uncertainLens_le (D : AtgDialect) (fuel : Nat) (s : List Char)
    (ad : AnchorDialect) (n : Nat) (p : Part) (r : List Char)
    (h : Part.parse D fuel s ad n = some (.ok (p, r))) :
    ∀ l ∈ p.uncertainLens, l ≤ 255 := by
  unfold Part.parse at h
  by_cases hs : s.isEmpty
  · simp only [hs, if_true] at h
    injections
    subst_vars
    simp [Part.uncertainLens]
  · simp only [hs, if_false, Bool.false_eq_true] at h
    rcases heo : escape_one_if_required D s with - | e | ⟨c, rem, adv⟩
    · rw [heo] at h
      exact absurd h (by simp)
    · rw [heo] at h
      exact absurd h (by simp)
    rw [heo] at h
    by_cases hill : c = D.atg_control_points.illegible
    · simp only [hill, if_true] at h
      rcases hu : Uncertain.parse D fuel rem with - | e | ⟨u, rem2⟩
      · rw [hu] at h
        exact absurd h (by simp)
      · rw [hu] at h
        exact absurd h (by simp)
      rw [hu] at h
      injections
      subst_vars
      intro l hl
      simp only [Part.uncertainLens, List.mem_singleton] at hl
      subst hl
      exact Uncertain_parse_len_le _ _ _ _ _ hu
    simp only [hill, if_false] at h
    by_cases hlac : c = D.atg_control_points.lacuna
    · simp only [hlac, if_true] at h
      rcases hu : Uncertain.parse D fuel rem with - | e | ⟨u, rem2⟩
      · rw [hu] at h
        exact absurd h (by simp)
      · rw [hu] at h
        exact absurd h (by simp)
      rw [hu] at h
      injections
      subst_vars
      intro l hl
      simp only [Part.uncertainLens, List.mem_singleton] at hl
      subst hl
      exact Uncertain_parse_len_le _ _ _ _ _ hu
    simp only [hlac, if_false] at h
    by_cases hanc : c = D.atg_control_points.anchor
    · simp only [hanc, if_true] at h
      rcases ha : Part.parse_anchor D fuel rem ad with - | e | ⟨a, rem2⟩
      · rw [ha] at h
        exact absurd h (by simp)
      · rw [ha] at h
        exact absurd h (by simp)
      rw [ha] at h
      injections
      subst_vars
      simp [Part.uncertainLens]
    simp only [hanc, if_false] at h
    by_cases hfb : c = D.atg_control_points.format_break
    · simp only [hfb, if_true] at h
      rcases hf : FormatBreak.parse D fuel rem with - | e | ⟨f, rem2⟩
      · rw [hf] at h
        exact absurd h (by simp)
      · rw [hf] at h
        exact absurd h (by simp)
      rw [hf] at h
      injections
      subst_vars
      simp [Part.uncertainLens]
    simp only [hfb, if_false] at h
    by_cases hcor : c = D.atg_control_points.correction
    · simp only [hcor, if_true] at h
      rcases hc : Correction.parse D fuel rem n with - | e | ⟨corr, rem2⟩
      · rw [hc] at h
        exact absurd h (by simp)
      · rw [hc] at h
        exact absurd h (by simp)
      rw [hc] at h
      injections
      subst_vars
      intro l hl
      simp only [Part.uncertainLens] at hl
      rw [Correction_parse_no_uncertain _ _ _ _ _ _ hc] at hl
      exact absurd hl (List.not_mem_nil l)
    simp only [hcor, if_false] at h
    by_cases hcom : c = D.atg_control_points.comment
    · simp only [hcom, if_true] at h
      rcases hcc : Part.parse_comment D fuel rem with - | e | ⟨clen, rem2⟩
      · rw [hcc] at h
        exact absurd h (by simp)
      · rw [hcc] at h
        exact absurd h (by simp)
      simp only [hcc] at h
      rcases hn : Part.parse_native D fuel rem2 with - | e | ⟨p2, rem3⟩
      · simp only [hn] at h
        exact absurd h (by simp)
      · simp only [hn] at h
        exact absurd h (by simp)
      simp only [hn] at h
      injections
      subst_vars
      obtain ⟨s2, hs2⟩ := Part_parse_native_is_native _ _ _ _ _ hn
      subst hs2
      simp [Part.uncertainLens]
    simp only [hcom, if_false] at h
    obtain ⟨s2, hs2⟩ := Part_parse_native_is_native _ _ _ _ _ h
    subst hs2
    simp [Part.uncertainLens]

theorem Text_parse_loop_uncertainLens_le (D : AtgDialect) (ad : AnchorDialect)
    (n inner_fuel : Nat) (fuel : Nat) (parts : List Part) (remainder : List Char)
    (t : Text)
    (h : Text.parse_loop D ad n inner_fuel fuel parts remainder = some (.ok t))
    (hacc : ∀ l ∈ (parts.map Part.uncertainLens).flatten, l ≤ 255) :
    ∀ l ∈ t.uncertainLens, l ≤ 255 := by
  induction fuel generalizing parts remainder with
  | zero => exact absurd h (by simp [Text.parse_loop])
  | succ nn ih =>
    unfold Text.parse_loop at h
    by_cases hrem : remainder.isEmpty
    · simp only [hrem, if_true] at h
      injections
      subst_vars
      exact hacc
    · simp only [hrem, Bool.false_eq_true, if_false] at h
      rcases hp : Part.parse D inner_fuel remainder ad n with - | e | ⟨next_part, next_remainder⟩
      · rw [hp] at h
        exact absurd h (by simp)
      · rw [hp] at h
        exact absurd h (by simp)
      rw [hp] at h
      refine ih _ _ h ?_
      intro l hl
      simp only [List.map_append, List.flatten_append, List.mem_append, List.map_cons,
        List.map_nil, List.flatten_cons, List.flatten_nil, List.append_nil] at hl
      rcases hl with hl | hl
      · exact hacc l hl
      · exact Part_parse_uncertainLens_le _ _ _ _ _ _ _ hp l hl

/-! ## Claim theorems -/

/-- **C1** (code bug).  The post-parse pipeline is not total on parsed
texts: the empty input parses successfully to the sentinel text
`[Native("")]` and flattens without error to one `UniqueText`, but
`UniqueText::split_words` panics on the empty native part (the word
split iterator produces no items, so the `.expect` on
`right_boundary_divides` fires); the surface supplier is never
reached. -/
theorem c1_tokenise_panics_on_parsed_empty_text :
    Text.parse exampleAtgDialect [] .example 1 = some (.ok ⟨[.Native []]⟩) ∧
    Text.toUniqueTexts ⟨[.Native []]⟩ = some [⟨[.Native []]⟩] ∧
    UniqueText.split_words exampleAtgDialect ⟨[.Native []]⟩ = none := by
  refine ⟨rfl, by decide, by decide⟩

/-- **C2** (code bug).  Flattening does not append the
`Present::Native("")` placeholder for a correction of length `L < K`:
the guard `x.versions.len() < num_of_corrections` panics on exactly that
case (its message even describes the opposite, impossible, condition),
so a text with corrections of lengths 2 and 1 makes flattening panic
instead of padding hand 1 of the second site. -/
theorem c2_flatten_panics_on_shorter_correction :
    Text.toUniqueTexts
      ⟨[.Correction ⟨[.Native ['a'], .Native ['b']]⟩,
        .Correction ⟨[.Native ['c']]⟩]⟩ = none := by
  decide

/-- **C3** (counterexample).  The round trip does not hold for every
`Text`: the text whose single part is `Native("^")` renders to the bare
illegible control point `"^"`, and parsing that rendering fails with
`EscapeMalformed` at byte offset 1 instead of succeeding. -/
theorem c3_counterexample_caret_native_fails_roundtrip :
    Text.parse exampleAtgDialect
        (Text.render exampleAtgDialect ⟨[Part.Native ['^']]⟩) .example 1 =
      some (.error ⟨1, .EscapeMalformed []⟩) := by
  decide

/-- **C3** (amended).  For every well-formed text `t` in the example
dialect with correction count `n` — native runs made of plain scalars
(not control points and one byte wide, which admits the word divisor,
digits and punctuation), proposals and correction versions drawn from
the dialect's native points (`collect_native_parameter` rejects anything
else with `NotNative`), uncertain lengths at most 255, and every
correction carrying exactly `n` (at least one) versions — parsing the
rendering succeeds and returns `t` up to coalescing adjacent native
parts, dropping empty native parts, normalising empty proposals to
absent ones, and the parser's `[Native("")]` sentinel for the empty
part list. -/
theorem c3_amended_parse_render_normal_form (t : Text) (n : Nat)
    (hwf : wfText exampleAtgDialect n t = true) :
    Text.parse exampleAtgDialect (Text.render exampleAtgDialect t) .example n =
      some (.ok t.parseNormalForm) := by
  have hren : Text.render exampleAtgDialect t = renderParts t.parts := rfl
  have hco := coalesceParts_coalesced t.parts
  have hwfc : (coalesceParts t.parts).all (wfPart exampleAtgDialect n) = true :=
    coalesceParts_wf t.parts n hwf
  have hr : renderParts (coalesceParts t.parts) = renderParts t.parts :=
    renderParts_coalesce t.parts
  rw [hren, ← hr]
  rcases hcs : coalesceParts t.parts with - | ⟨p, rest⟩
  · show Text.parse exampleAtgDialect [] .example n = _
    rw [show Text.parse exampleAtgDialect [] AnchorDialect.example n =
      some (.ok ⟨[.Native []]⟩) from rfl]
    simp [Text.parseNormalForm, hcs]
  · rw [hcs] at hco hwfc
    simp only [List.all_cons, Bool.and_eq_true] at hwfc
    obtain ⟨hwf0, hwfr⟩ := hwfc
    unfold Text.parse
    rw [renderParts_cons]
    rw [part_parse_render_first p rest n _ hwf0 hco hwfr
      (by rw [List.length_append]; omega)]
    simp only []
    rw [text_parse_loop_render rest n [propNormPart p] _ _ hwfr
      (coalescedB_tail _ _ hco)
      (by rw [List.length_append]; omega)
      (by rw [List.length_append]; omega)]
    simp [Text.parseNormalForm, hcs]

/-- Witness for the amended C3: the theorem applied to the multi-word
text `Native("A B")`, whose rendering `"A B"` parses back to the text
itself — the word divisor is a plain scalar, so ordinary multi-word
texts are covered. -/
theorem c3_amended_parse_render_normal_form_witness :
    Text.parse exampleAtgDialect
        (Text.render exampleAtgDialect ⟨[Part.Native "A B".toList]⟩) .example 1 =
      some (.ok (Text.parseNormalForm ⟨[Part.Native "A B".toList]⟩)) :=
  c3_amended_parse_render_normal_form ⟨[Part.Native "A B".toList]⟩ 1 (by decide)

/-- **C5** (amended).  For every dialect, anchor dialect, correction
count and input string, every uncertain passage of a successfully parsed
text (including those inside correction versions) has `len` at most 255:
the length parameter is parsed as a `u8`, so overflow is a
`LengthNotANumber` error, never a truncation.  Length 0 is accepted. -/
theorem c5_amended_uncertain_lens_le_255 (D : AtgDialect) (ad : AnchorDialect)
    (n : Nat) (s : List Char) (t : Text)
    (h : Text.parse D s ad n = some (.ok t)) :
    ∀ l ∈ t.uncertainLens, l ≤ 255 := by
  unfold Text.parse at h
  rcases hp : Part.parse D (s.length + 1) s ad n with - | e | ⟨first_part, remainder⟩
  · rw [hp] at h
    exact absurd h (by simp)
  · rw [hp] at h
    exact absurd h (by simp)
  rw [hp] at h
  refine Text_parse_loop_uncertainLens_le _ _ _ _ _ _ _ _ h ?_
  intro l hl
  simp only [List.map_cons, List.map_nil, List.flatten_cons, List.flatten_nil,
    List.append_nil] at hl
  exact Part_parse_uncertainLens_le _ _ _ _ _ _ _ hp l hl

/-- Witness for the amended C5: the theorem applied to the parse of
`"^(0)"` in the example dialect, at the length of its single uncertain
part. -/
theorem c5_amended_uncertain_lens_le_255_witness : (0 : Nat) ≤ 255 :=
  c5_amended_uncertain_lens_le_255 exampleAtgDialect .example 1 "^(0)".toList
    ⟨[.Illegible ⟨0, none⟩]⟩ (by decide) 0 (by decide)

/-- **C6** (confirmed).  The S3 scenario: parsing and normalising
`"This ^(1)(i)s /(line)so~(4)()ext."` in the example dialect with K=1
yields one hand with exactly the six display forms
`["This","is","so","~~~~","ext","."]`. -/
theorem c6_scenario_s3_display_forms :
    ∃ t : Text,
      Text.parse exampleAtgDialect "This ^(1)(i)s /(line)so~(4)()ext.".toList
        .example 1 = some (.ok t) ∧
      (t.auto_normalise exampleAtgDialect).map (fun l => l.map (·.surfaces)) =
        some [["This".toList, "is".toList, "so".toList, "~~~~".toList,
               "ext".toList, ".".toList]] := by
  refine ⟨⟨[.Native "This ".toList, .Illegible ⟨1, some ['i']⟩, .Native ['s', ' '],
    .FormatBreak .Line, .Native ['s', 'o'], .Lacuna ⟨4, none⟩,
    .Native "ext.".toList]⟩, by decide, by decide⟩

/-- **C7** (counterexample).  Parsing `"^(2)(\g)"` in the example dialect
does not fail at byte offset 4: the malformed escape `\g` starts at byte
offset 5 of the original input and that is where the error is
reported. -/
theorem c7_counterexample_error_not_at_offset_4 :
    presErrorLocation (Text.parse exampleAtgDialect "^(2)(\\g)".toList .example 1)
      ≠ some 4 := by
  decide

/-- **C7** (amended).  Parsing `"^(2)(\g)"` in the example dialect fails
with `EscapeMalformed("\g)")` at byte offset 5 of the original input —
the byte offset of the escape character itself (the illegible control
point occupies byte 0, so the proposal parameter's interior starts at
byte 5). -/
theorem c7_malformed_escape_at_offset_5 :
    Text.parse exampleAtgDialect "^(2)(\\g)".toList .example 1 =
      some (.error ⟨5, .EscapeMalformed ['\\', 'g', ')']⟩) := by
  decide

/-- **C4** (code bug).  The single-character reader does not return an
escaped control point as a literal when it is the last scalar of the
input and multi-byte: for the example dialect's input `"\§"` the source
falls back to the literal byte index `2` (`None => 2_usize`), which lies
inside the two-byte anchor control point `§`, and the slice `&s[2..]`
panics instead of returning `§`. -/
theorem c4_escaped_multibyte_control_at_eof_panics :
    escape_one_if_required exampleAtgDialect ['\\', '§'] = none := by
  decide

/-- **C5** (counterexample).  A parse can produce an uncertain part of
length 0: `"^(0)"` parses successfully, so not every parsed text has
only positive uncertain lengths. -/
theorem c5_counterexample_len_zero_parses :
    ¬ ∀ t : Text,
        Text.parse exampleAtgDialect "^(0)".toList .example 1 = some (.ok t) →
        t.uncertainLens.all (fun l => 0 < l) = true := by
  intro h
  have h0 := h ⟨[.Illegible ⟨0, none⟩]⟩ (by decide)
  exact absurd h0 (by decide)

/-- **C8** (counterexample).  A native string beginning with a
punctuation scalar does not mark its left boundary as a word division:
`split_words` on `Native(".")` in the example dialect returns
`left_boundary_divides = false`. -/
theorem c8_counterexample_leading_punctuation :
    (UniqueSurfacePart.split_words exampleAtgDialect (.Native ['.'])).map
      (fun b => b.left_boundary_divides) = some false := by
  decide

/-- **C8** (amended).  For a native string processed by `split_part`,
only a leading word divisor marks the left boundary as a word division:
if the first scalar is the divisor, `left_boundary_divides = true`; if it
is a punctuation scalar (and not the divisor), `left_boundary_divides =
false`. -/
theorem c8_amended_left_boundary (D : AtgDialect) (c : Char) (rest : List Char) :
    (c = D.word_divisor →
      (UniqueSurfacePart.split_words D (.Native (c :: rest))).map
        (fun b => b.left_boundary_divides) = some true) ∧
    (D.punctuation.contains c = true → c ≠ D.word_divisor →
      (UniqueSurfacePart.split_words D (.Native (c :: rest))).map
        (fun b => b.left_boundary_divides) = some false) := by
  constructor
  · intro hdiv
    have hitems : split_native_stream D (c :: rest) =
        ([], false) :: wordSplitItems D none rest := by
      simp [split_native_stream, wordSplitItems, hdiv]
    obtain ⟨r, hr⟩ := Option.isSome_iff_exists.mp
      (lastItemClosed_isSome (split_native_stream D (c :: rest)) (by rw [hitems]; simp))
    obtain ⟨chain, hchain⟩ := Option.isSome_iff_exists.mp
      (wordChainOfItems_mkNative_isSome (split_native_stream D (c :: rest)))
    simp [UniqueSurfacePart.split_words, hr, hchain, hitems ▸ hr, hitems ▸ hchain,
      hitems, leftBoundaryOfItems]
  · intro hpunct hdiv
    have hmem : c ∈ D.punctuation := by simpa using hpunct
    have hitems : split_native_stream D (c :: rest) =
        ([c], true) :: wordSplitItems D none rest := by
      simp [split_native_stream, wordSplitItems, hdiv, hmem]
    obtain ⟨r, hr⟩ := Option.isSome_iff_exists.mp
      (lastItemClosed_isSome (split_native_stream D (c :: rest)) (by rw [hitems]; simp))
    obtain ⟨chain, hchain⟩ := Option.isSome_iff_exists.mp
      (wordChainOfItems_mkNative_isSome (split_native_stream D (c :: rest)))
    simp [UniqueSurfacePart.split_words, hr, hchain, hitems ▸ hr, hitems ▸ hchain,
      hitems, leftBoundaryOfItems]

/-- Witness for the amended C8 at concrete inputs: a leading divisor
(`" a"`) gives `left_boundary_divides = true`, a leading punctuation
scalar (`".a"`) gives `left_boundary_divides = false`, in the example
dialect. -/
theorem c8_amended_left_boundary_witness :
    (UniqueSurfacePart.split_words exampleAtgDialect (.Native [' ', 'a'])).map
      (fun b => b.left_boundary_divides) = some true ∧
    (UniqueSurfacePart.split_words exampleAtgDialect (.Native ['.', 'a'])).map
      (fun b => b.left_boundary_divides) = some false :=
  ⟨(c8_amended_left_boundary exampleAtgDialect ' ' ['a']).1 rfl,
   (c8_amended_left_boundary exampleAtgDialect '.' ['a']).2 (by decide) (by decide)⟩

/-- **C10** (confirmed).  Flattening a text that contains no correction
yields exactly one `UniqueText` whose parts are the input's parts,
preserved in order (the hand count is the maximum correction arity,
defaulting to 1, independent of the witness-declared K). -/
theorem c10_flatten_without_corrections (t : Text)
    (h : t.parts.all (fun p => !p.is_correction) = true) :
    Text.toUniqueTexts t = some [⟨t.parts.filterMap Part.as_unique_part⟩] := by
  have hnone : t.parts.filterMap (fun p =>
      match p with
      | .Correction x => some x.versions.length
      | _ => none) = [] := by
    rw [List.filterMap_eq_nil_iff]
    intro p hp
    have := List.all_eq_true.mp h p hp
    cases p <;> simp [Part.is_correction] at this ⊢
  unfold Text.toUniqueTexts
  rw [hnone]
  simpa using flatten_fold_no_correction t.parts ⟨[]⟩ h

/-- Witness for C10 at a concrete correction-free text. -/
theorem c10_flatten_without_corrections_witness :
    Text.toUniqueTexts ⟨[.Native ['a'], .FormatBreak .Line, .Lacuna ⟨2, none⟩]⟩ =
      some [⟨[.Native ['a'], .FormatBreak .Line, .Lacuna ⟨2, none⟩]⟩] :=
  c10_flatten_without_corrections
    ⟨[.Native ['a'], .FormatBreak .Line, .Lacuna ⟨2, none⟩]⟩ (by decide)

/-- **C9** (confirmed).  Parsing the empty string succeeds for every
dialect, anchor dialect and correction count, and yields exactly the
sentinel text `[Native("")]`. -/
theorem c9_empty_parse_yields_native_sentinel (D : AtgDialect)
    (anchor_dialect : AnchorDialect) (number_of_corrections : Nat) :
    Text.parse D [] anchor_dialect number_of_corrections =
      some (.ok ⟨[.Native []]⟩) := rfl

end Critic
